import Mathlib

/-!
nginx-http-json-log: shallow embedding of `ngx_http_json_log_module.c`.

The module is embedded as pure functions over explicit state.

* Bytes are natural numbers, byte strings are lists of bytes.
* A pointer into the `formats` array is an index into that array; a NULL
  pointer is `none`.
* Pool allocation is taken to succeed, so the `== NULL` branches that follow
  `ngx_pcalloc`, `ngx_array_create`, `ngx_array_push`, `ngx_pnalloc` and
  `ngx_conf_open_file` are not taken.
* The host (nginx) and the JSON library (jansson) are not part of the
  repository.  The few functions of theirs the module calls are modelled from
  their documented behaviour, each marked as such.
-/

namespace NgxHttpJsonLog

/-! Bytes and C strings -/

/-- One byte, the C type `u_char`. -/
abbrev u_char := Nat

/-- An `ngx_str_t`: the `len` bytes found at `data`.  Configuration tokens and
`ngx_string` literals are followed in memory by a terminating NUL byte, which is
not part of the list. -/
abbrev ngx_str_t := List u_char

/-- The bytes of an ASCII literal. -/
def ascii (s : String) : List u_char := s.toList.map Char.toNat

/-- What a C string function reads through a `char *` that points at these
bytes (followed by the terminating NUL): everything before the first NUL. -/
def c_str (s : List u_char) : List u_char := s.takeWhile (fun c => c != 0)

/-- The C library function `strlen`. -/
def strlen (s : List u_char) : Nat := (c_str s).length

/-- A byte string without NUL byte. -/
def NulFree (s : List u_char) : Prop := ∀ c ∈ s, c ≠ 0

instance (s : List u_char) : Decidable (NulFree s) :=
  inferInstanceAs (Decidable (∀ c ∈ s, c ≠ 0))

/-- The nginx macro `ngx_tolower(c)`:
`(c >= 'A' && c <= 'Z') ? (c | 0x20) : c`. -/
def ngx_tolower (c : u_char) : u_char :=
  if 0x41 ≤ c ∧ c ≤ 0x5A then c ||| 0x20 else c

/-- The comparison loop shared by `strcmp` and `ngx_strcasecmp`: both strings are
read byte by byte up to the terminating NUL, each byte passed through `fold`
(which keeps NUL); the result is the difference of the first pair of bytes that
differ, and 0 when both strings end together.  The module only tests the result
against 0. -/
def c_compare (fold : u_char → u_char) : List u_char → List u_char → Int
  | [], [] => 0
  | [], c2 :: _ => if (0 : u_char) = fold c2 then 0 else (0 : Int) - (fold c2 : Int)
  | c1 :: _, [] => if fold c1 = 0 then 0 else (fold c1 : Int) - 0
  | c1 :: s1, c2 :: s2 =>
    if fold c1 = fold c2 then
      if fold c1 ≠ 0 then c_compare fold s1 s2 else 0
    else (fold c1 : Int) - (fold c2 : Int)

/-- The nginx macro `ngx_strcmp(s1, s2)`, which is `strcmp`. -/
def ngx_strcmp (s1 s2 : List u_char) : Int := c_compare id s1 s2

/-- The nginx function `ngx_strcasecmp(s1, s2)`: `strcmp` after folding the
letters `A`..`Z` of both strings to lower case. -/
def ngx_strcasecmp (s1 s2 : List u_char) : Int := c_compare ngx_tolower s1 s2

/-- The nginx function `ngx_cpystrn(dst, src, n)`: copies at most `n - 1` bytes
of `src`, stops after a NUL byte, and terminates `dst` with NUL.  The result is
the C string left in `dst`. -/
def ngx_cpystrn (src : List u_char) (n : Nat) : List u_char :=
  if n = 0 then [] else c_str (src.take (n - 1))

/-- The nginx return code `NGX_OK`. -/
def NGX_OK : Int := 0

/-- The nginx return code `NGX_ERROR`. -/
def NGX_ERROR : Int := -1

/-- The line feed byte written by `ngx_linefeed`. -/
def LF : u_char := 0x0A

/-! The JSON library (jansson), as far as the module uses it -/

/-- The jansson function `utf8_check_first`: the length of the UTF-8 sequence
that starts with byte `u`, 0 when `u` cannot start one. -/
def utf8_check_first (u : u_char) : Nat :=
  if u < 0x80 then 1
  else if 0x80 ≤ u ∧ u ≤ 0xBF then 0
  else if u = 0xC0 ∨ u = 0xC1 then 0
  else if 0xC2 ≤ u ∧ u ≤ 0xDF then 2
  else if 0xE0 ≤ u ∧ u ≤ 0xEF then 3
  else if 0xF0 ≤ u ∧ u ≤ 0xF4 then 4
  else 0

/-- The continuation loop of `utf8_check_full`: the code point after reading the
given continuation bytes, `none` when one of them is not in `0x80..0xBF`. -/
def utf8_continuation : List u_char → Nat → Option Nat
  | [], value => some value
  | u :: rest, value =>
    if u < 0x80 ∨ u > 0xBF then none
    else utf8_continuation rest ((value <<< 6) + (u &&& 0x3F))

/-- The jansson function `utf8_check_full(buffer, size)`: whether the `size`
bytes at `buffer` are one well-formed UTF-8 sequence (continuation bytes in
range, code point at most `0x10FFFF`, no surrogate, no overlong form). -/
def utf8_check_full (buffer : List u_char) (size : Nat) : Bool :=
  let u := buffer.headD 0
  if size = 2 ∨ size = 3 ∨ size = 4 then
    let value := if size = 2 then u &&& 0x1F else if size = 3 then u &&& 0xF else u &&& 0x7
    match utf8_continuation ((buffer.drop 1).take (size - 1)) value with
    | none => false
    | some value =>
      if value > 0x10FFFF then false
      else if 0xD800 ≤ value ∧ value ≤ 0xDFFF then false
      else if (size = 2 ∧ value < 0x80) ∨ (size = 3 ∧ value < 0x800)
          ∨ (size = 4 ∧ value < 0x10000) then false
      else true
  else false

/-- The loop of the jansson function `utf8_check_string`.  Every round consumes
at least one byte, so `fuel` equal to the length of the string is enough. -/
def utf8_check_string_loop : Nat → List u_char → Bool
  | _, [] => true
  | 0, _ :: _ => false
  | fuel + 1, u :: rest =>
    let count := utf8_check_first u
    if count = 0 then false
    else if count > 1 then
      if count > rest.length + 1 then false
      else if !utf8_check_full (u :: rest) count then false
      else utf8_check_string_loop fuel (rest.drop (count - 1))
    else utf8_check_string_loop fuel rest

/-- The jansson function `utf8_check_string`: whether a C string is valid UTF-8. -/
def utf8_check_string (s : List u_char) : Bool := utf8_check_string_loop s.length s

/-- A JSON value as the module creates them: every member value comes from
`json_string`. -/
inductive json_t where
  | string (value : List u_char)
  deriving DecidableEq, Repr

/-- A jansson object: its members in iteration order.  jansson (2.8 and later)
iterates and dumps the members in the order in which their keys were first
inserted. -/
structure json_object_t where
  members : List (List u_char × json_t)
  deriving DecidableEq, Repr

/-- The jansson function `json_object()`: a new empty object. -/
def json_object : json_object_t := ⟨[]⟩

/-- The jansson function `json_string(value)`: a new JSON string holding the C
string `value`, NULL when `value` is not valid UTF-8. -/
def json_string (value : List u_char) : Option json_t :=
  if utf8_check_string value then some (json_t.string value) else none

/-- The jansson function `hashtable_set`: replaces the value of an existing key
where it stands, and appends a new key at the end. -/
def hashtable_set :
    List (List u_char × json_t) → List u_char → json_t → List (List u_char × json_t)
  | [], key, value => [(key, value)]
  | (k, v) :: rest, key, value =>
    if k = key then (k, value) :: rest else (k, v) :: hashtable_set rest key value

/-- The jansson function `json_object_set_new(object, key, value)`: fails (and
leaves the object as it is) when `value` is NULL or `key` is not valid UTF-8,
and otherwise stores `value` under `key`.  The module ignores the return value,
so only the object is returned. -/
def json_object_set_new (object : json_object_t) (key : List u_char)
    (value : Option json_t) : json_object_t :=
  if utf8_check_string key then
    match value with
    | none => object
    | some v => ⟨hashtable_set object.members key v⟩
  else object

/-- The jansson function `json_object_get(object, key)`. -/
def json_object_get (object : json_object_t) (key : List u_char) : Option json_t :=
  (object.members.find? (fun m => m.1 == key)).map (fun m => m.2)

/-- The keys of an object in iteration order. -/
def json_object_keys (object : json_object_t) : List (List u_char) :=
  object.members.map (fun m => m.1)

/-- An upper-case hexadecimal digit, as printed by `%X`. -/
def hex_digit (n : Nat) : u_char := if n < 10 then 0x30 + n else 0x41 + (n - 10)

/-- The output of `dump_string` for one byte of a valid UTF-8 string: backslash,
double quote and the control characters below `0x20` are escaped (the latter as
`\b \f \n \r \t` or `\u00XX`), every other byte is written as it is. -/
def dump_escape (c : u_char) : List u_char :=
  if c = 0x5C then [0x5C, 0x5C]
  else if c = 0x22 then [0x5C, 0x22]
  else if c = 0x08 then [0x5C, 0x62]
  else if c = 0x0C then [0x5C, 0x66]
  else if c = 0x0A then [0x5C, 0x6E]
  else if c = 0x0D then [0x5C, 0x72]
  else if c = 0x09 then [0x5C, 0x74]
  else if c < 0x20 then [0x5C, 0x75, 0x30, 0x30, hex_digit (c / 16), hex_digit (c % 16)]
  else [c]

/-- The jansson function `dump_string`: the string between double quotes with
the mandatory escapes; fails on a string that is not valid UTF-8. -/
def dump_string (str : List u_char) : Option (List u_char) :=
  if utf8_check_string str then some ([0x22] ++ str.flatMap dump_escape ++ [0x22]) else none

/-- One member of an object as `json_dumps` writes it under `JSON_COMPACT`:
key, a colon, value. -/
def dump_member (m : List u_char × json_t) : Option (List u_char) :=
  match m.2 with
  | json_t.string value =>
    match dump_string m.1, dump_string value with
    | some k, some v => some (k ++ [0x3A] ++ v)
    | _, _ => none

/-- The members of an object joined by commas. -/
def dump_members : List (List u_char × json_t) → Option (List u_char)
  | [] => some []
  | [m] => dump_member m
  | m :: rest =>
    match dump_member m, dump_members rest with
    | some d, some ds => some (d ++ [0x2C] ++ ds)
    | _, _ => none

/-- The jansson function `json_dumps(object, JSON_COMPACT)`: the object between
braces, members separated by commas, no white space; NULL when a member cannot
be dumped. -/
def json_dumps (object : json_object_t) : Option (List u_char) :=
  match dump_members object.members with
  | some ds => some ([0x7B] ++ ds ++ [0x7D])
  | none => none

/-! Types of the module (source lines 21-43) -/

/-- The struct `ngx_http_json_log_field_t`. -/
structure ngx_http_json_log_field_t where
  name : ngx_str_t
  index : Int
  deriving DecidableEq, Repr

/-- The struct `ngx_http_json_log_fmt_t`.  `fields` is a pointer, NULL (`none`)
until an array is created for it. -/
structure ngx_http_json_log_fmt_t where
  name : ngx_str_t
  fields : Option (List ngx_http_json_log_field_t)
  deriving DecidableEq, Repr

/-- The host struct `ngx_open_file_t`, identified by the name it was opened
under. -/
structure ngx_open_file_t where
  name : ngx_str_t
  deriving DecidableEq, Repr

/-- The struct `ngx_http_json_log_t`.  `format` points into the `formats` array
of the main configuration and is held as an index; `none` is NULL. -/
structure ngx_http_json_log_t where
  format : Option Nat
  file : ngx_open_file_t
  deriving DecidableEq, Repr

/-- The struct `ngx_http_json_log_main_conf_t`. -/
structure ngx_http_json_log_main_conf_t where
  formats : List ngx_http_json_log_fmt_t
  deriving DecidableEq, Repr

/-- The struct `ngx_http_json_log_loc_conf_t`.  `logs` is a pointer, NULL (`none`)
until an array is created for it. -/
structure ngx_http_json_log_loc_conf_t where
  logs : Option (List ngx_http_json_log_t)
  off : Nat
  deriving DecidableEq, Repr

/-- The host struct `ngx_http_variable_value_t`; `len` is the length of `data`. -/
structure ngx_http_variable_value_t where
  data : List u_char
  not_found : Bool
  deriving DecidableEq, Repr

/-- A request, as far as the module looks at it: the host function
`ngx_http_get_indexed_variable(r, index)`, which returns NULL (`none`) or a
value. -/
abbrev ngx_http_request_t := Int → Option ngx_http_variable_value_t

/-- One call of `ngx_write_fd(log->file->fd, buf, len)`. -/
structure write_call where
  file : ngx_open_file_t
  buf : List u_char
  len : Nat
  deriving DecidableEq, Repr

/-- The two return values of a directive handler. -/
inductive conf_rc where
  | NGX_CONF_OK
  | NGX_CONF_ERROR
  deriving DecidableEq, Repr

/-- The messages the module passes to `ngx_conf_log_error(NGX_LOG_EMERG, ...)`. -/
inductive emerg_t where
  | invalid_parameter (value : ngx_str_t)
  | unknown_log_format (name : ngx_str_t)
  | duplicated_name (name : ngx_str_t)
  deriving DecidableEq, Repr

/-- What a directive handler leaves behind: its return value, the message it
logged (if any) and the configuration it worked on. -/
structure conf_outcome (α : Type) where
  rc : conf_rc
  emerg : Option emerg_t
  conf : α
  deriving DecidableEq, Repr

/-! Static data (source lines 14, 80-89) -/

/-- The static `ngx_http_json_access_log`. -/
def ngx_http_json_access_log : ngx_str_t := ascii "/tmp/ngx_json.log"

/-- The static array `combined_fields`. -/
def combined_fields : List ngx_str_t :=
  [ascii "remote_addr", ascii "remote_user", ascii "time_local", ascii "request",
   ascii "status", ascii "body_bytes_sent", ascii "http_referer", ascii "http_user_agent"]

/-- The host function `ngx_conf_open_file(cycle, name)`: the open-file entry
registered under `name`. -/
def ngx_conf_open_file (name : ngx_str_t) : ngx_open_file_t := ⟨name⟩

/-! The log handler (source lines 156-223) -/

/-- The body of the inner loop of `ngx_http_json_log_handler` (lines 180-190):
one field is looked up and stored in the object under its name. -/
def set_field (r : ngx_http_request_t) (obj : json_object_t)
    (field : ngx_http_json_log_field_t) : json_object_t :=
  match r field.index with
  | none => json_object_set_new obj (c_str field.name) (json_string (ascii "-"))
  | some value =>
    if value.not_found then
      json_object_set_new obj (c_str field.name) (json_string (ascii "-"))
    else
      let field_val := ngx_cpystrn value.data (value.data.length + 1)
      json_object_set_new obj (c_str field.name) (json_string field_val)

/-- The object composed by `ngx_http_json_log_handler` for one log (lines
177-191): starting from an empty object, every field of the format is stored in
turn. -/
def compose_json_object (r : ngx_http_request_t)
    (fields : List ngx_http_json_log_field_t) : json_object_t :=
  fields.foldl (set_field r) json_object

/-- The function `ngx_http_json_log_write`: one call of `ngx_write_fd`, whose
result is dropped. -/
def ngx_http_json_log_write (log : ngx_http_json_log_t) (buf : List u_char)
    (len : Nat) : write_call :=
  ⟨log.file, buf, len⟩

/-- One round of the outer loop of `ngx_http_json_log_handler` (lines 176-202).
`none` stands for the crash on a NULL pointer: `log[l].format`, its `fields`, or
the result of `json_dumps`. -/
def log_one (lmcf : ngx_http_json_log_main_conf_t) (r : ngx_http_request_t)
    (log : ngx_http_json_log_t) : Option write_call :=
  match log.format with
  | none => none
  | some i =>
    match lmcf.formats[i]? with
    | none => none
    | some fmt =>
      match fmt.fields with
      | none => none
      | some fields =>
        let obj := compose_json_object r fields
        match json_dumps obj with
        | none => none
        | some json_str =>
          let len := strlen json_str
          let line := json_str.take len ++ [LF]
          some (ngx_http_json_log_write log line (len + 1))

/-- The outer loop of `ngx_http_json_log_handler` (line 175): the writes made,
and the return value, `none` when a round crashed. -/
def log_loop (lmcf : ngx_http_json_log_main_conf_t) (r : ngx_http_request_t) :
    List ngx_http_json_log_t → List write_call × Option Int
  | [] => ([], some NGX_OK)
  | log :: rest =>
    match log_one lmcf r log with
    | none => ([], none)
    | some w => (w :: (log_loop lmcf r rest).1, (log_loop lmcf r rest).2)

/-- The function `ngx_http_json_log_handler`: the calls of `ngx_write_fd` it
makes, in order, and its return value (`none` when it crashes on a NULL
pointer).  `lmcf` is the memory the `format` pointers point into. -/
def ngx_http_json_log_handler (lmcf : ngx_http_json_log_main_conf_t)
    (llcf : ngx_http_json_log_loc_conf_t) (r : ngx_http_request_t) :
    List write_call × Option Int :=
  if llcf.off ≠ 0 then ([], some NGX_OK)
  else
    match llcf.logs with
    | none => ([], none)
    | some logs => log_loop lmcf r logs

/-! Configuration (source lines 225-474) -/

/-- The function `ngx_http_json_log_create_main_conf`: the registry starts with
the format `combined`, whose fields are not set yet. -/
def ngx_http_json_log_create_main_conf : ngx_http_json_log_main_conf_t :=
  ⟨[⟨ascii "combined", none⟩]⟩

/-- The function `ngx_http_json_log_create_loc_conf`: a zeroed struct. -/
def ngx_http_json_log_create_loc_conf : ngx_http_json_log_loc_conf_t :=
  ⟨none, 0⟩

/-- The function `ngx_http_json_log_merge_loc_conf`; `prev` is the parent and
`conf` the child, which is the configuration written to. -/
def ngx_http_json_log_merge_loc_conf (prev conf : ngx_http_json_log_loc_conf_t) :
    conf_outcome ngx_http_json_log_loc_conf_t :=
  if conf.logs.isSome ∨ conf.off ≠ 0 then ⟨conf_rc.NGX_CONF_OK, none, conf⟩
  else
    let conf1 : ngx_http_json_log_loc_conf_t := ⟨prev.logs, prev.off⟩
    if conf1.logs.isSome ∨ conf1.off ≠ 0 then ⟨conf_rc.NGX_CONF_OK, none, conf1⟩
    else
      let log : ngx_http_json_log_t := ⟨none, ngx_conf_open_file ngx_http_json_access_log⟩
      ⟨conf_rc.NGX_CONF_OK, none, ⟨some [log], conf1.off⟩⟩

/-- The test of the lookup loop of `ngx_http_json_log_set_log` (lines 357-358). -/
def fmt_matches (name : ngx_str_t) (fmt : ngx_http_json_log_fmt_t) : Bool :=
  fmt.name.length == name.length && ngx_strcasecmp fmt.name name == 0

/-- The lookup loop of `ngx_http_json_log_set_log` (lines 355-363), started at
index `i`: the index of the first format that passes the test. -/
def find_format (name : ngx_str_t) : List ngx_http_json_log_fmt_t → Nat → Option Nat
  | [], _ => none
  | fmt :: rest, i => if fmt_matches name fmt then some i else find_format name rest (i + 1)

/-- The function `ngx_http_json_log_set_log` for the directive
`access_json_log`.  `args` is `cf->args` (the directive name first; nginx admits
the directive with one argument or more), `lmcf` the main configuration and
`llcf` the location configuration written to. -/
def ngx_http_json_log_set_log (lmcf : ngx_http_json_log_main_conf_t)
    (args : List ngx_str_t) (llcf : ngx_http_json_log_loc_conf_t) :
    conf_outcome ngx_http_json_log_loc_conf_t :=
  let value1 := args.getD 1 []
  if ngx_strcmp value1 (ascii "off") = 0 then
    if args.length = 2 then ⟨conf_rc.NGX_CONF_OK, none, ⟨llcf.logs, 1⟩⟩
    else ⟨conf_rc.NGX_CONF_ERROR, some (emerg_t.invalid_parameter (args.getD 2 [])),
          ⟨llcf.logs, 1⟩⟩
  else
    let logs := llcf.logs.getD []
    let file := ngx_conf_open_file value1
    let name := if args.length ≥ 3 then args.getD 2 [] else ascii "combined"
    match find_format name lmcf.formats 0 with
    | some i => ⟨conf_rc.NGX_CONF_OK, none, ⟨some (logs ++ [⟨some i, file⟩]), llcf.off⟩⟩
    | none =>
      ⟨conf_rc.NGX_CONF_ERROR, some (emerg_t.unknown_log_format name),
       ⟨some (logs ++ [⟨none, file⟩]), llcf.off⟩⟩

/-- The test of the duplicate check of `ngx_http_json_log_set_fields` (lines
389-390). -/
def fmt_duplicates (value1 : ngx_str_t) (fmt : ngx_http_json_log_fmt_t) : Bool :=
  fmt.name.length == value1.length && ngx_strcmp fmt.name value1 == 0

/-- The field loop of `ngx_http_json_log_set_fields` (lines 409-421): the fields
pushed, and whether every index was resolved.  `get_variable_index` is the host
function `ngx_http_get_variable_index`. -/
def push_fields (get_variable_index : ngx_str_t → Int) :
    List ngx_str_t → List ngx_http_json_log_field_t × Bool
  | [] => ([], true)
  | v :: rest =>
    if get_variable_index v = NGX_ERROR then ([⟨v, get_variable_index v⟩], false)
    else (⟨v, get_variable_index v⟩ :: (push_fields get_variable_index rest).1,
          (push_fields get_variable_index rest).2)

/-- The function `ngx_http_json_log_set_fields` for the directive
`json_log_fields`.  `args` is `cf->args` (the directive name, the format name,
then the field names; nginx admits the directive with two arguments or more). -/
def ngx_http_json_log_set_fields (get_variable_index : ngx_str_t → Int)
    (args : List ngx_str_t) (lmcf : ngx_http_json_log_main_conf_t) :
    conf_outcome ngx_http_json_log_main_conf_t :=
  let value1 := args.getD 1 []
  if lmcf.formats.any (fmt_duplicates value1) then
    ⟨conf_rc.NGX_CONF_ERROR, some (emerg_t.duplicated_name value1), lmcf⟩
  else
    let pushed := push_fields get_variable_index (args.drop 2)
    ⟨if pushed.2 then conf_rc.NGX_CONF_OK else conf_rc.NGX_CONF_ERROR, none,
     ⟨lmcf.formats ++ [⟨value1, some pushed.1⟩]⟩⟩

/-- A sequence of `json_log_fields` directives applied in order, each one to the
registry the one before left behind, whatever it returned. -/
def define_formats (get_variable_index : ngx_str_t → Int)
    (directives : List (List ngx_str_t)) (lmcf : ngx_http_json_log_main_conf_t) :
    ngx_http_json_log_main_conf_t :=
  directives.foldl
    (fun conf args => (ngx_http_json_log_set_fields get_variable_index args conf).conf) lmcf

/-! Notions used to state the properties -/

/-- Two names are equal up to the case of the letters `A`..`Z`. -/
def EqIgnoreCase (a b : ngx_str_t) : Prop := a.map ngx_tolower = b.map ngx_tolower

instance (a b : ngx_str_t) : Decidable (EqIgnoreCase a b) :=
  inferInstanceAs (Decidable (a.map ngx_tolower = b.map ngx_tolower))

/-- The distinct elements of a list, each at the place of its first occurrence. -/
def first_occurrences : List (List u_char) → List (List u_char)
  | [] => []
  | x :: xs => x :: (first_occurrences xs).filter (fun y => y != x)

/-- The format name that an `access_json_log` directive asks for: its second
argument, and `combined` when it has none. -/
def requested_format (args : List ngx_str_t) : ngx_str_t :=
  if args.length ≥ 3 then args.getD 2 [] else ascii "combined"

/-- The C string that `ngx_http_json_log_handler` passes to `json_string` for a
field (lines 182-189): `-` when the variable is missing or marked not found,
and otherwise the copy made by `ngx_cpystrn`. -/
def field_value (r : ngx_http_request_t) (field : ngx_http_json_log_field_t) :
    List u_char :=
  match r field.index with
  | none => ascii "-"
  | some value =>
    if value.not_found then ascii "-"
    else ngx_cpystrn value.data (value.data.length + 1)

/-- A log whose `format` points at a format of the registry that has its fields. -/
def HasFormat (lmcf : ngx_http_json_log_main_conf_t) (log : ngx_http_json_log_t) : Prop :=
  ∃ i fmt fields, log.format = some i ∧ lmcf.formats[i]? = some fmt ∧ fmt.fields = some fields

/-! Sample configurations and requests -/

/-- A resolver of variable names: the position of the name among the fields of
`combined`, then 8 for `arg_x`, and failure on the empty name. -/
def sample_index (name : ngx_str_t) : Int :=
  if name = [] then NGX_ERROR
  else if name ∈ combined_fields then (combined_fields.indexOf name : Int) else 8

/-- The fields of the format `minimal`: `status` and `request`. -/
def minimal_fields : List ngx_http_json_log_field_t :=
  [⟨ascii "status", 4⟩, ⟨ascii "request", 3⟩]

/-- A registry with `combined` (its fields not filled in) and `minimal`. -/
def sample_main_conf : ngx_http_json_log_main_conf_t :=
  ⟨[⟨ascii "combined", none⟩, ⟨ascii "minimal", some minimal_fields⟩]⟩

/-- A request with status `404` and request line `GET /x HTTP/1.1`; every other
variable is missing. -/
def sample_request : ngx_http_request_t := fun index =>
  if index = 4 then some ⟨ascii "404", false⟩
  else if index = 3 then some ⟨ascii "GET /x HTTP/1.1", false⟩
  else some ⟨[], true⟩

/-- A log bound to `minimal`, written to `/var/log/a.log`. -/
def sample_log : ngx_http_json_log_t := ⟨some 1, ⟨ascii "/var/log/a.log"⟩⟩

/-- A second log bound to `minimal`, written to `/var/log/b.log`. -/
def sample_log_b : ngx_http_json_log_t := ⟨some 1, ⟨ascii "/var/log/b.log"⟩⟩

/-- A request whose `User-Agent` header is the single byte `0xFF`. -/
def latin1_request : ngx_http_request_t := fun index =>
  if index = 7 then some ⟨[0xFF], false⟩ else some ⟨[], true⟩

/-- A request whose variable 3 holds the three bytes `a`, NUL, `b`. -/
def nul_request : ngx_http_request_t := fun index =>
  if index = 3 then some ⟨[0x61, 0x00, 0x62], false⟩ else some ⟨[], true⟩

/-- The field `arg_` followed by the byte `0xFF`, a name that is not UTF-8. -/
def latin1_field : ngx_http_json_log_field_t := ⟨ascii "arg_" ++ [0xFF], 8⟩

/-! C strings and comparisons -/

theorem c_str_nil : c_str [] = [] := rfl

theorem c_str_cons (c : u_char) (s : List u_char) :
    c_str (c :: s) = if c = 0 then [] else c :: c_str s := by
  unfold c_str
  by_cases h : c = 0
  · simp [h, List.takeWhile]
  · have hb : (c != 0) = true := bne_iff_ne.mpr h
    simp [h, hb, List.takeWhile]

theorem c_str_of_nulFree {s : List u_char} (h : NulFree s) : c_str s = s := by
  unfold c_str
  rw [List.takeWhile_eq_self_iff]
  intro x hx
  simpa using h x hx

theorem c_str_eq_of_length {s : List u_char} (h : (c_str s).length = s.length) :
    c_str s = s :=
  (List.takeWhile_prefix _).eq_of_length h

theorem ngx_tolower_eq_zero (c : u_char) : ngx_tolower c = 0 ↔ c = 0 := by
  unfold ngx_tolower
  split
  · rename_i h
    obtain ⟨h1, h2⟩ := h
    constructor
    · intro h0
      exfalso
      interval_cases c <;> simp at h0
    · intro h0; subst h0; simp at h1
  · rfl

theorem c_compare_eq_zero_iff (fold : u_char → u_char) (h0 : ∀ c, fold c = 0 ↔ c = 0)
    (a b : List u_char) :
    c_compare fold a b = 0 ↔ (c_str a).map fold = (c_str b).map fold := by
  have hz : fold 0 = 0 := (h0 0).2 rfl
  induction a generalizing b with
  | nil =>
    cases b with
    | nil => simp [c_compare]
    | cons c2 s2 =>
      by_cases h : c2 = 0
      · simp [c_compare, c_str_cons, h, hz, c_str_nil]
      · have hf : fold c2 ≠ 0 := fun hh => h ((h0 c2).1 hh)
        have hf2 : ¬ (0 = fold c2) := fun hh => hf hh.symm
        simp [c_compare, c_str_cons, h, hf2, c_str_nil]
        exact hf
  | cons c1 s1 ih =>
    cases b with
    | nil =>
      by_cases h : c1 = 0
      · simp [c_compare, c_str_cons, h, hz, c_str_nil]
      · have hf : fold c1 ≠ 0 := fun hh => h ((h0 c1).1 hh)
        simp [c_compare, c_str_cons, h, hf, c_str_nil]
    | cons c2 s2 =>
      by_cases h1 : c1 = 0
      · by_cases h2 : c2 = 0
        · simp [c_compare, c_str_cons, h1, h2, hz]
        · have hf : fold c2 ≠ 0 := fun hh => h2 ((h0 c2).1 hh)
          have hf2 : ¬ (0 = fold c2) := fun hh => hf hh.symm
          simp [c_compare, c_str_cons, h1, h2, hz, hf2]
          exact hf
      · have hf1 : fold c1 ≠ 0 := fun hh => h1 ((h0 c1).1 hh)
        by_cases h2 : c2 = 0
        · simp [c_compare, c_str_cons, h1, h2, hz, hf1]
        · have hf2 : fold c2 ≠ 0 := fun hh => h2 ((h0 c2).1 hh)
          by_cases he : fold c1 = fold c2
          · simp [c_compare, c_str_cons, h1, h2, he, hf2, ih s2]
          · simp [c_compare, c_str_cons, h1, h2, he]
            intro hh
            exact he (by exact_mod_cast sub_eq_zero.mp hh)

theorem ngx_strcmp_eq_zero_iff (a b : List u_char) :
    ngx_strcmp a b = 0 ↔ c_str a = c_str b := by
  unfold ngx_strcmp
  rw [c_compare_eq_zero_iff id (fun c => Iff.rfl)]
  simp

theorem ngx_strcasecmp_eq_zero_iff (a b : List u_char) :
    ngx_strcasecmp a b = 0 ↔ (c_str a).map ngx_tolower = (c_str b).map ngx_tolower := by
  unfold ngx_strcasecmp
  exact c_compare_eq_zero_iff ngx_tolower ngx_tolower_eq_zero a b

theorem c_str_map_tolower (a : List u_char) :
    c_str (a.map ngx_tolower) = (c_str a).map ngx_tolower := by
  induction a with
  | nil => rfl
  | cons c s ih =>
    rw [List.map_cons, c_str_cons, c_str_cons, ih]
    by_cases h : c = 0
    · simp [h, (ngx_tolower_eq_zero 0).2 rfl]
    · have : ngx_tolower c ≠ 0 := fun hh => h ((ngx_tolower_eq_zero c).1 hh)
      simp [h, this]

/-! The registry of formats -/

theorem fmt_duplicates_iff (value1 : ngx_str_t) (fmt : ngx_http_json_log_fmt_t) :
    fmt_duplicates value1 fmt = true ↔
      fmt.name.length = value1.length ∧ c_str fmt.name = c_str value1 := by
  simp [fmt_duplicates, ngx_strcmp_eq_zero_iff]

theorem fmt_duplicates_of_name_eq {value1 : ngx_str_t} {fmt : ngx_http_json_log_fmt_t}
    (h : fmt.name = value1) : fmt_duplicates value1 fmt = true := by
  rw [fmt_duplicates_iff, h]
  exact ⟨rfl, rfl⟩

theorem name_eq_of_fmt_duplicates {value1 : ngx_str_t} {fmt : ngx_http_json_log_fmt_t}
    (hv : NulFree value1) (h : fmt_duplicates value1 fmt = true) : fmt.name = value1 := by
  rw [fmt_duplicates_iff] at h
  obtain ⟨hl, hc⟩ := h
  rw [c_str_of_nulFree hv] at hc
  have : c_str fmt.name = fmt.name := c_str_eq_of_length (by rw [hc, hl])
  rw [← this, hc]

theorem set_fields_of_registered (gvi : ngx_str_t → Int) (args : List ngx_str_t)
    (lmcf : ngx_http_json_log_main_conf_t)
    (h : ∃ fmt ∈ lmcf.formats, fmt.name = args.getD 1 []) :
    ngx_http_json_log_set_fields gvi args lmcf =
      ⟨conf_rc.NGX_CONF_ERROR, some (emerg_t.duplicated_name (args.getD 1 [])), lmcf⟩ := by
  obtain ⟨fmt, hmem, hname⟩ := h
  have hany : lmcf.formats.any (fmt_duplicates (args.getD 1 [])) = true :=
    List.any_eq_true.2 ⟨fmt, hmem, fmt_duplicates_of_name_eq hname⟩
  simp only [ngx_http_json_log_set_fields, hany, if_true]

theorem set_fields_of_not_duplicate (gvi : ngx_str_t → Int) (args : List ngx_str_t)
    (lmcf : ngx_http_json_log_main_conf_t)
    (h : lmcf.formats.any (fmt_duplicates (args.getD 1 [])) = false) :
    ngx_http_json_log_set_fields gvi args lmcf =
      ⟨if (push_fields gvi (args.drop 2)).2 then conf_rc.NGX_CONF_OK
        else conf_rc.NGX_CONF_ERROR, none,
       ⟨lmcf.formats ++ [⟨args.getD 1 [], some (push_fields gvi (args.drop 2)).1⟩]⟩⟩ := by
  simp only [ngx_http_json_log_set_fields, h]
  rfl

theorem set_fields_names_nodup (gvi : ngx_str_t → Int) (args : List ngx_str_t)
    (lmcf : ngx_http_json_log_main_conf_t)
    (h : (lmcf.formats.map (fun fmt => fmt.name)).Nodup) :
    ((ngx_http_json_log_set_fields gvi args lmcf).conf.formats.map
      (fun fmt => fmt.name)).Nodup := by
  by_cases hany : lmcf.formats.any (fmt_duplicates (args.getD 1 [])) = true
  · simp only [ngx_http_json_log_set_fields, hany, if_true]
    exact h
  · have hany2 : lmcf.formats.any (fmt_duplicates (args.getD 1 [])) = false := by
      simpa using hany
    rw [set_fields_of_not_duplicate gvi args lmcf hany2]
    simp only [List.map_append, List.map_cons, List.map_nil]
    rw [List.nodup_append]
    refine ⟨h, List.nodup_singleton _, ?_⟩
    intro a ha hb
    rw [List.mem_singleton] at hb
    subst hb
    obtain ⟨fmt, hmem, hname⟩ := List.mem_map.1 ha
    have := List.any_eq_true.2 ⟨fmt, hmem, fmt_duplicates_of_name_eq hname⟩
    rw [hany2] at this
    exact Bool.false_ne_true this

theorem define_formats_names_nodup (gvi : ngx_str_t → Int)
    (directives : List (List ngx_str_t)) (lmcf : ngx_http_json_log_main_conf_t)
    (h : (lmcf.formats.map (fun fmt => fmt.name)).Nodup) :
    ((define_formats gvi directives lmcf).formats.map (fun fmt => fmt.name)).Nodup := by
  induction directives generalizing lmcf with
  | nil => exact h
  | cons args rest ih =>
    exact ih _ (set_fields_names_nodup gvi args lmcf h)

theorem set_fields_then_duplicate (gvi : ngx_str_t → Int) (args : List ngx_str_t)
    (lmcf : ngx_http_json_log_main_conf_t) :
    (ngx_http_json_log_set_fields gvi args lmcf).conf.formats.any
      (fmt_duplicates (args.getD 1 [])) = true := by
  by_cases hany : lmcf.formats.any (fmt_duplicates (args.getD 1 [])) = true
  · simp only [ngx_http_json_log_set_fields, hany, if_true]
  · have hany2 : lmcf.formats.any (fmt_duplicates (args.getD 1 [])) = false := by
      simpa using hany
    rw [set_fields_of_not_duplicate gvi args lmcf hany2, List.any_append]
    have : fmt_duplicates (args.getD 1 [])
        ⟨args.getD 1 [], some (push_fields gvi (args.drop 2)).1⟩ = true :=
      fmt_duplicates_of_name_eq rfl
    simp only [List.any_cons, List.any_nil, this, Bool.or_false, Bool.or_true]

theorem set_fields_of_duplicate (gvi : ngx_str_t → Int) (args : List ngx_str_t)
    (lmcf : ngx_http_json_log_main_conf_t)
    (h : lmcf.formats.any (fmt_duplicates (args.getD 1 [])) = true) :
    ngx_http_json_log_set_fields gvi args lmcf =
      ⟨conf_rc.NGX_CONF_ERROR, some (emerg_t.duplicated_name (args.getD 1 [])), lmcf⟩ := by
  simp only [ngx_http_json_log_set_fields, h, if_true]

/-- C8: `ngx_http_json_log_set_fields` fails with the message about a duplicated
name, and leaves the registry as it was, whenever a format of that name is
registered; the registry made by `ngx_http_json_log_create_main_conf` already
holds `combined`; after any sequence of `json_log_fields` directives the names
in the registry are pairwise distinct; and a second definition under the name
of a first one fails as a duplicate. -/
theorem set_fields_rejects_duplicate (gvi : ngx_str_t → Int)
    (args args2 : List ngx_str_t) (directives : List (List ngx_str_t))
    (lmcf : ngx_http_json_log_main_conf_t) :
    ((∃ fmt ∈ lmcf.formats, fmt.name = args.getD 1 []) →
      ngx_http_json_log_set_fields gvi args lmcf =
        ⟨conf_rc.NGX_CONF_ERROR, some (emerg_t.duplicated_name (args.getD 1 [])), lmcf⟩)
    ∧ (args.getD 1 [] = ascii "combined" →
      ngx_http_json_log_set_fields gvi args ngx_http_json_log_create_main_conf =
        ⟨conf_rc.NGX_CONF_ERROR, some (emerg_t.duplicated_name (ascii "combined")),
         ngx_http_json_log_create_main_conf⟩)
    ∧ ((define_formats gvi directives ngx_http_json_log_create_main_conf).formats.map
        (fun fmt => fmt.name)).Nodup
    ∧ (args2.getD 1 [] = args.getD 1 [] →
      ngx_http_json_log_set_fields gvi args2
          (ngx_http_json_log_set_fields gvi args lmcf).conf =
        ⟨conf_rc.NGX_CONF_ERROR, some (emerg_t.duplicated_name (args.getD 1 [])),
         (ngx_http_json_log_set_fields gvi args lmcf).conf⟩) := by
  refine ⟨set_fields_of_registered gvi args lmcf, ?_, ?_, ?_⟩
  · intro h
    have := set_fields_of_registered gvi args ngx_http_json_log_create_main_conf
      ⟨⟨ascii "combined", none⟩, by simp [ngx_http_json_log_create_main_conf], h.symm⟩
    rw [this, h]
  · exact define_formats_names_nodup gvi directives _
      (by simp [ngx_http_json_log_create_main_conf])
  · intro h
    have := set_fields_of_duplicate gvi args2 _
      (h ▸ set_fields_then_duplicate gvi args lmcf)
    rw [this, h]

/-- C8, at the directives `json_log_fields custom status` and
`json_log_fields custom request` on a fresh registry: the first is accepted and
the second fails as a duplicate. -/
theorem set_fields_rejects_duplicate_witness :
    (ngx_http_json_log_set_fields sample_index
        [ascii "json_log_fields", ascii "custom", ascii "status"]
        ngx_http_json_log_create_main_conf).rc = conf_rc.NGX_CONF_OK
    ∧ ngx_http_json_log_set_fields sample_index
        [ascii "json_log_fields", ascii "custom", ascii "request"]
        (ngx_http_json_log_set_fields sample_index
          [ascii "json_log_fields", ascii "custom", ascii "status"]
          ngx_http_json_log_create_main_conf).conf =
      ⟨conf_rc.NGX_CONF_ERROR, some (emerg_t.duplicated_name (ascii "custom")),
       (ngx_http_json_log_set_fields sample_index
          [ascii "json_log_fields", ascii "custom", ascii "status"]
          ngx_http_json_log_create_main_conf).conf⟩ :=
  ⟨by decide,
   (set_fields_rejects_duplicate sample_index
      [ascii "json_log_fields", ascii "custom", ascii "status"]
      [ascii "json_log_fields", ascii "custom", ascii "request"] []
      ngx_http_json_log_create_main_conf).2.2.2 (by decide)⟩

/-! Merging location configurations -/

/-- C6, refuted at a parent and a child that are both fresh (no logs, not off):
the child has no bindings of its own and is not disabled, and still the merged
bindings are not those of the parent. -/
theorem merge_loc_conf_not_parent :
    (ngx_http_json_log_create_loc_conf.logs = none
      ∧ ngx_http_json_log_create_loc_conf.off = 0)
    ∧ (ngx_http_json_log_merge_loc_conf ngx_http_json_log_create_loc_conf
        ngx_http_json_log_create_loc_conf).conf.logs
      ≠ ngx_http_json_log_create_loc_conf.logs := by
  decide

/-- C6, amended: `ngx_http_json_log_merge_loc_conf` leaves the child as it is
when the child has logs or is off; and when the child has neither and the
parent has logs or is off, the merged logs and off flag are exactly those of the
parent. -/
theorem merge_loc_conf_inherits (prev conf : ngx_http_json_log_loc_conf_t) :
    (conf.logs ≠ none ∨ conf.off ≠ 0 →
      ngx_http_json_log_merge_loc_conf prev conf = ⟨conf_rc.NGX_CONF_OK, none, conf⟩)
    ∧ (conf.logs = none → conf.off = 0 → (prev.logs ≠ none ∨ prev.off ≠ 0) →
      (ngx_http_json_log_merge_loc_conf prev conf).rc = conf_rc.NGX_CONF_OK
      ∧ (ngx_http_json_log_merge_loc_conf prev conf).conf.logs = prev.logs
      ∧ (ngx_http_json_log_merge_loc_conf prev conf).conf.off = prev.off) := by
  constructor
  · intro h
    have h1 : conf.logs.isSome = true ∨ conf.off ≠ 0 := by
      rcases h with h | h
      · left; exact Option.isSome_iff_ne_none.2 h
      · right; exact h
    simp only [ngx_http_json_log_merge_loc_conf, h1, if_true]
  · intro hl ho hp
    have h1 : ¬ (conf.logs.isSome = true ∨ conf.off ≠ 0) := by
      simp [hl, ho]
    have h2 : prev.logs.isSome = true ∨ prev.off ≠ 0 := by
      rcases hp with h | h
      · left; exact Option.isSome_iff_ne_none.2 h
      · right; exact h
    simp only [ngx_http_json_log_merge_loc_conf, h1, h2, if_true, if_false]
    exact ⟨trivial, trivial, trivial⟩

/-- C6, amended, at a fresh child under a parent with two logs, and under a
parent that is off: the child receives the two logs in their order, resp. the
off flag. -/
theorem merge_loc_conf_inherits_witness :
    (ngx_http_json_log_merge_loc_conf ⟨some [sample_log, sample_log_b], 0⟩
        ngx_http_json_log_create_loc_conf).conf.logs = some [sample_log, sample_log_b]
    ∧ (ngx_http_json_log_merge_loc_conf ⟨none, 1⟩
        ngx_http_json_log_create_loc_conf).conf.off = 1 :=
  ⟨((merge_loc_conf_inherits ⟨some [sample_log, sample_log_b], 0⟩
      ngx_http_json_log_create_loc_conf).2 rfl rfl (Or.inl (by decide))).2.1,
   ((merge_loc_conf_inherits ⟨none, 1⟩
      ngx_http_json_log_create_loc_conf).2 rfl rfl (Or.inr (by decide))).2.2⟩

/-- C7, the code at a fresh child under a fresh parent: the one log that is
made has the default file name and a NULL format, and the handler run on the
merged configuration crashes before any write. -/
theorem merge_default_log_null_format (lmcf : ngx_http_json_log_main_conf_t)
    (r : ngx_http_request_t) :
    ngx_http_json_log_merge_loc_conf ngx_http_json_log_create_loc_conf
        ngx_http_json_log_create_loc_conf =
      ⟨conf_rc.NGX_CONF_OK, none,
       ⟨some [⟨none, ⟨ascii "/tmp/ngx_json.log"⟩⟩], 0⟩⟩
    ∧ ngx_http_json_log_handler lmcf
        (ngx_http_json_log_merge_loc_conf ngx_http_json_log_create_loc_conf
          ngx_http_json_log_create_loc_conf).conf r = ([], none) := by
  constructor
  · decide
  · rfl

/-! Looking a format up -/

theorem fmt_matches_iff (name : ngx_str_t) (fmt : ngx_http_json_log_fmt_t) :
    fmt_matches name fmt = true ↔
      fmt.name.length = name.length
        ∧ (c_str fmt.name).map ngx_tolower = (c_str name).map ngx_tolower := by
  simp [fmt_matches, ngx_strcasecmp_eq_zero_iff]

theorem fmt_matches_of_eqIgnoreCase {name : ngx_str_t} {fmt : ngx_http_json_log_fmt_t}
    (h : EqIgnoreCase fmt.name name) : fmt_matches name fmt = true := by
  rw [fmt_matches_iff]
  unfold EqIgnoreCase at h
  constructor
  · have := congrArg List.length h
    simpa using this
  · rw [← c_str_map_tolower, ← c_str_map_tolower, h]

theorem eqIgnoreCase_of_fmt_matches {name : ngx_str_t} {fmt : ngx_http_json_log_fmt_t}
    (hn : NulFree name) (h : fmt_matches name fmt = true) : EqIgnoreCase fmt.name name := by
  rw [fmt_matches_iff] at h
  obtain ⟨hl, hc⟩ := h
  rw [c_str_of_nulFree hn] at hc
  have hlen : (c_str fmt.name).length = fmt.name.length := by
    have := congrArg List.length hc
    simp only [List.length_map] at this
    rw [this, hl]
  rw [c_str_eq_of_length hlen] at hc
  exact hc

theorem find_format_eq_none_iff (name : ngx_str_t) (fs : List ngx_http_json_log_fmt_t)
    (k : Nat) :
    find_format name fs k = none ↔ ∀ fmt ∈ fs, fmt_matches name fmt = false := by
  induction fs generalizing k with
  | nil => simp [find_format]
  | cons fmt rest ih =>
    by_cases h : fmt_matches name fmt = true
    · simp [find_format, h]
    · have h2 : fmt_matches name fmt = false := by simpa using h
      simp [find_format, h2, ih]

theorem find_format_eq_some_iff (name : ngx_str_t) (fs : List ngx_http_json_log_fmt_t)
    (k i : Nat) :
    find_format name fs k = some i ↔
      ∃ pre fmt post, fs = pre ++ fmt :: post ∧ i = k + pre.length
        ∧ fmt_matches name fmt = true ∧ ∀ f ∈ pre, fmt_matches name f = false := by
  induction fs generalizing k with
  | nil => simp [find_format]
  | cons fmt rest ih =>
    by_cases h : fmt_matches name fmt = true
    · simp only [find_format, h, if_true, Option.some.injEq]
      constructor
      · intro hk
        exact ⟨[], fmt, rest, rfl, by simp [hk], h, by simp⟩
      · rintro ⟨pre, f, post, hsplit, hi, hf, hpre⟩
        cases pre with
        | nil => simp [hi]
        | cons p pre2 =>
          simp only [List.cons_append, List.cons.injEq] at hsplit
          have := hpre p (by simp)
          rw [← hsplit.1, h] at this
          exact absurd this (by simp)
    · have h2 : fmt_matches name fmt = false := by simpa using h
      simp only [find_format, h2, Bool.false_eq_true, if_false]
      rw [ih]
      constructor
      · rintro ⟨pre, f, post, hsplit, hi, hf, hpre⟩
        refine ⟨fmt :: pre, f, post, by simp [hsplit], by simp [hi]; omega, hf, ?_⟩
        intro g hg
        rcases List.mem_cons.1 hg with hg | hg
        · rw [hg]; exact h2
        · exact hpre g hg
      · rintro ⟨pre, f, post, hsplit, hi, hf, hpre⟩
        cases pre with
        | nil =>
          simp only [List.nil_append, List.cons.injEq] at hsplit
          rw [← hsplit.1, h2] at hf
          exact absurd hf (by simp)
        | cons p pre2 =>
          simp only [List.cons_append, List.cons.injEq] at hsplit
          refine ⟨pre2, f, post, hsplit.2, by simp at hi; omega, hf, ?_⟩
          intro g hg
          exact hpre g (List.mem_cons_of_mem _ hg)

theorem fmt_matches_of_eqIgnoreCase_of_matches {name : ngx_str_t}
    {f g : ngx_http_json_log_fmt_t} (hfg : EqIgnoreCase f.name g.name)
    (hg : fmt_matches name g = true) : fmt_matches name f = true := by
  have h1 : fmt_matches g.name f = true := fmt_matches_of_eqIgnoreCase hfg
  rw [fmt_matches_iff] at h1 hg ⊢
  exact ⟨h1.1.trans hg.1, h1.2.trans hg.2⟩

theorem nulFree_getD {args : List ngx_str_t} (htok : ∀ a ∈ args, NulFree a) (n : Nat) :
    NulFree (args.getD n []) := by
  rw [List.getD_eq_getElem?_getD]
  cases h : args[n]? with
  | none => intro c hc; simp at hc
  | some a => exact htok a (List.getElem?_mem h)

theorem nulFree_requested_format {args : List ngx_str_t} (htok : ∀ a ∈ args, NulFree a) :
    NulFree (requested_format args) := by
  unfold requested_format
  split
  · exact nulFree_getD htok 2
  · decide

theorem ngx_strcmp_off_iff {v : ngx_str_t} (hv : NulFree v) :
    ngx_strcmp v (ascii "off") = 0 ↔ v = ascii "off" := by
  rw [ngx_strcmp_eq_zero_iff, c_str_of_nulFree hv]
  have : c_str (ascii "off") = ascii "off" := by decide
  rw [this]

theorem set_log_of_not_off (lmcf : ngx_http_json_log_main_conf_t) (args : List ngx_str_t)
    (llcf : ngx_http_json_log_loc_conf_t)
    (h : ¬ ngx_strcmp (args.getD 1 []) (ascii "off") = 0) :
    ngx_http_json_log_set_log lmcf args llcf =
      match find_format (requested_format args) lmcf.formats 0 with
      | some i =>
        ⟨conf_rc.NGX_CONF_OK, none,
         ⟨some (llcf.logs.getD [] ++ [⟨some i, ngx_conf_open_file (args.getD 1 [])⟩]),
          llcf.off⟩⟩
      | none =>
        ⟨conf_rc.NGX_CONF_ERROR, some (emerg_t.unknown_log_format (requested_format args)),
         ⟨some (llcf.logs.getD [] ++ [⟨none, ngx_conf_open_file (args.getD 1 [])⟩]),
          llcf.off⟩⟩ := by
  simp only [ngx_http_json_log_set_log, h, if_false, requested_format]

/-- C9: for an `access_json_log` directive whose arguments are C strings and
whose destination is not `off`, `ngx_http_json_log_set_log` looks the requested
format name up (`combined` when none is given) by equality up to letter case.
When some registered name is equal up to case, it returns `NGX_CONF_OK` and
appends one log, with the file of the destination and a pointer to a registered
format whose name is equal up to case; and it fails with the message about an
unknown log format exactly when no registered name is equal up to case. -/
theorem set_log_resolves_format (lmcf : ngx_http_json_log_main_conf_t)
    (args : List ngx_str_t) (llcf : ngx_http_json_log_loc_conf_t)
    (htok : ∀ a ∈ args, NulFree a) (hoff : args.getD 1 [] ≠ ascii "off") :
    ((∃ fmt ∈ lmcf.formats, EqIgnoreCase fmt.name (requested_format args)) →
      ∃ i fmt, lmcf.formats[i]? = some fmt
        ∧ EqIgnoreCase fmt.name (requested_format args)
        ∧ ngx_http_json_log_set_log lmcf args llcf =
            ⟨conf_rc.NGX_CONF_OK, none,
             ⟨some (llcf.logs.getD [] ++ [⟨some i, ngx_conf_open_file (args.getD 1 [])⟩]),
              llcf.off⟩⟩)
    ∧ (((ngx_http_json_log_set_log lmcf args llcf).rc = conf_rc.NGX_CONF_ERROR
        ∧ (ngx_http_json_log_set_log lmcf args llcf).emerg =
            some (emerg_t.unknown_log_format (requested_format args)))
      ↔ ¬ ∃ fmt ∈ lmcf.formats, EqIgnoreCase fmt.name (requested_format args)) := by
  have hne : ¬ ngx_strcmp (args.getD 1 []) (ascii "off") = 0 := fun h =>
    hoff ((ngx_strcmp_off_iff (nulFree_getD htok 1)).1 h)
  have hname := nulFree_requested_format htok
  rw [set_log_of_not_off lmcf args llcf hne]
  cases hfind : find_format (requested_format args) lmcf.formats 0 with
  | none =>
    have hall := (find_format_eq_none_iff _ _ _).1 hfind
    have hno : ¬ ∃ fmt ∈ lmcf.formats, EqIgnoreCase fmt.name (requested_format args) := by
      rintro ⟨fmt, hmem, heq⟩
      have := fmt_matches_of_eqIgnoreCase heq
      rw [hall fmt hmem] at this
      exact Bool.false_ne_true this
    exact ⟨fun h => absurd h hno, fun _ => hno, fun _ => ⟨rfl, rfl⟩⟩
  | some i =>
    obtain ⟨pre, fmt, post, hsplit, hi, hm, _⟩ := (find_format_eq_some_iff _ _ _ _).1 hfind
    have heq : EqIgnoreCase fmt.name (requested_format args) :=
      eqIgnoreCase_of_fmt_matches hname hm
    have hget : lmcf.formats[i]? = some fmt := by
      rw [hsplit, hi, Nat.zero_add, List.getElem?_append_right (Nat.le_refl _)]
      simp
    have hmem : fmt ∈ lmcf.formats := List.getElem?_mem hget
    refine ⟨fun _ => ⟨i, fmt, hget, heq, rfl⟩, ?_⟩
    constructor
    · rintro ⟨hrc, _⟩
      exact absurd hrc (by simp)
    · intro hno
      exact absurd ⟨fmt, hmem, heq⟩ hno

/-- C9, at the directives `access_json_log /var/log/a.log MINIMAL` and
`access_json_log /var/log/a.log nosuch` on a fresh location, with `combined` and
`minimal` registered: the first binds the log to `minimal`, the second fails
with the message about an unknown log format. -/
theorem set_log_resolves_format_witness :
    (∃ i fmt, sample_main_conf.formats[i]? = some fmt
        ∧ EqIgnoreCase fmt.name (ascii "MINIMAL")
        ∧ ngx_http_json_log_set_log sample_main_conf
            [ascii "access_json_log", ascii "/var/log/a.log", ascii "MINIMAL"]
            ngx_http_json_log_create_loc_conf =
          ⟨conf_rc.NGX_CONF_OK, none,
           ⟨some ([] ++ [⟨some i, ngx_conf_open_file (ascii "/var/log/a.log")⟩]), 0⟩⟩)
    ∧ (ngx_http_json_log_set_log sample_main_conf
          [ascii "access_json_log", ascii "/var/log/a.log", ascii "nosuch"]
          ngx_http_json_log_create_loc_conf).emerg =
        some (emerg_t.unknown_log_format (ascii "nosuch")) :=
  ⟨(set_log_resolves_format sample_main_conf
      [ascii "access_json_log", ascii "/var/log/a.log", ascii "MINIMAL"]
      ngx_http_json_log_create_loc_conf (by decide) (by decide)).1 (by decide),
   (((set_log_resolves_format sample_main_conf
      [ascii "access_json_log", ascii "/var/log/a.log", ascii "nosuch"]
      ngx_http_json_log_create_loc_conf (by decide) (by decide)).2).2 (by decide)).2⟩

theorem push_fields_ok (gvi : ngx_str_t → Int) (vs : List ngx_str_t)
    (h : ∀ v ∈ vs, gvi v ≠ NGX_ERROR) : (push_fields gvi vs).2 = true := by
  induction vs with
  | nil => rfl
  | cons v rest ih =>
    have hv : gvi v ≠ NGX_ERROR := h v (by simp)
    simp only [push_fields, hv, if_false]
    exact ih (fun w hw => h w (List.mem_cons_of_mem _ hw))

theorem find_format_ne_later (name : ngx_str_t) (fs : List ngx_http_json_log_fmt_t)
    (i j : Nat) (fi fj : ngx_http_json_log_fmt_t) (hij : i < j)
    (hi : fs[i]? = some fi) (hj : fs[j]? = some fj)
    (heq : EqIgnoreCase fi.name fj.name) : find_format name fs 0 ≠ some j := by
  intro hfind
  obtain ⟨pre, fmt, post, hsplit, hlen, hm, hpre⟩ :=
    (find_format_eq_some_iff _ _ _ _).1 hfind
  rw [Nat.zero_add] at hlen
  have hfj : fj = fmt := by
    rw [hsplit, hlen, List.getElem?_append_right (Nat.le_refl _)] at hj
    simpa using hj.symm
  have hfi : fi ∈ pre := by
    rw [hsplit, List.getElem?_append_left (hlen ▸ hij)] at hi
    exact List.getElem?_mem hi
  have := fmt_matches_of_eqIgnoreCase_of_matches heq (hfj ▸ hm)
  rw [hpre fi hfi] at this
  exact Bool.false_ne_true this

/-- C10: the duplicate check of `ngx_http_json_log_set_fields` compares names
exactly, the lookup of `ngx_http_json_log_set_log` compares them up to letter
case and stops at the first match.  For a name that is a C string, the lookup
returns index `i` exactly when the format at `i` is the first one whose name is
equal up to case.  A `json_log_fields` directive whose name is a C string that
is not registered is accepted (the format is appended; the directive returns
`NGX_CONF_OK` when its fields resolve), also when an earlier name is equal up to
case.  And a format whose name is equal up to case to that of an earlier format
is never the one a lookup returns. -/
theorem lookup_returns_earliest_match (gvi : ngx_str_t → Int)
    (lmcf : ngx_http_json_log_main_conf_t) (args : List ngx_str_t) (name : ngx_str_t) :
    (NulFree name → ∀ i, (find_format name lmcf.formats 0 = some i ↔
      ∃ pre fmt post, lmcf.formats = pre ++ fmt :: post ∧ i = pre.length
        ∧ EqIgnoreCase fmt.name name ∧ ∀ f ∈ pre, ¬ EqIgnoreCase f.name name))
    ∧ (NulFree (args.getD 1 []) → (∀ f ∈ lmcf.formats, f.name ≠ args.getD 1 []) →
      (ngx_http_json_log_set_fields gvi args lmcf).emerg = none
      ∧ (ngx_http_json_log_set_fields gvi args lmcf).conf.formats =
          lmcf.formats ++ [⟨args.getD 1 [], some (push_fields gvi (args.drop 2)).1⟩]
      ∧ ((∀ v ∈ args.drop 2, gvi v ≠ NGX_ERROR) →
          (ngx_http_json_log_set_fields gvi args lmcf).rc = conf_rc.NGX_CONF_OK))
    ∧ (∀ i j fi fj, i < j → lmcf.formats[i]? = some fi → lmcf.formats[j]? = some fj →
        EqIgnoreCase fi.name fj.name → find_format name lmcf.formats 0 ≠ some j) := by
  refine ⟨?_, ?_, ?_⟩
  · intro hname i
    rw [find_format_eq_some_iff]
    constructor
    · rintro ⟨pre, fmt, post, hsplit, hi, hm, hpre⟩
      refine ⟨pre, fmt, post, hsplit, by simpa using hi,
        eqIgnoreCase_of_fmt_matches hname hm, ?_⟩
      intro f hf heq
      have := fmt_matches_of_eqIgnoreCase heq
      rw [hpre f hf] at this
      exact Bool.false_ne_true this
    · rintro ⟨pre, fmt, post, hsplit, hi, heq, hpre⟩
      refine ⟨pre, fmt, post, hsplit, by simpa using hi,
        fmt_matches_of_eqIgnoreCase heq, ?_⟩
      intro f hf
      by_contra hc
      have hm : fmt_matches name f = true := by simpa using hc
      exact hpre f hf (eqIgnoreCase_of_fmt_matches hname hm)
  · intro hv hnew
    have hany : lmcf.formats.any (fmt_duplicates (args.getD 1 [])) = false := by
      by_contra hc
      have hc2 : lmcf.formats.any (fmt_duplicates (args.getD 1 [])) = true := by
        simpa using hc
      obtain ⟨f, hf, hd⟩ := List.any_eq_true.1 hc2
      exact hnew f hf (name_eq_of_fmt_duplicates hv hd)
    rw [set_fields_of_not_duplicate gvi args lmcf hany]
    refine ⟨rfl, rfl, ?_⟩
    intro hres
    simp only [push_fields_ok gvi _ hres, if_true]
  · intro i j fi fj hij hi hj heq
    exact find_format_ne_later name lmcf.formats i j fi fj hij hi hj heq

/-- C10, at the directive `json_log_fields Combined status` on a fresh registry:
the directive is accepted and `Combined` is registered at index 1 behind the
built-in `combined`, and the lookup of `Combined` returns index 0, never 1. -/
theorem lookup_returns_earliest_match_witness :
    (ngx_http_json_log_set_fields sample_index
        [ascii "json_log_fields", ascii "Combined", ascii "status"]
        ngx_http_json_log_create_main_conf).rc = conf_rc.NGX_CONF_OK
    ∧ (ngx_http_json_log_set_fields sample_index
        [ascii "json_log_fields", ascii "Combined", ascii "status"]
        ngx_http_json_log_create_main_conf).conf.formats =
      [⟨ascii "combined", none⟩, ⟨ascii "Combined", some [⟨ascii "status", 4⟩]⟩]
    ∧ find_format (ascii "Combined")
        [⟨ascii "combined", none⟩, ⟨ascii "Combined", some [⟨ascii "status", 4⟩]⟩] 0
      = some 0
    ∧ find_format (ascii "Combined")
        [⟨ascii "combined", none⟩, ⟨ascii "Combined", some [⟨ascii "status", 4⟩]⟩] 0
      ≠ some 1 :=
  ⟨((lookup_returns_earliest_match sample_index ngx_http_json_log_create_main_conf
      [ascii "json_log_fields", ascii "Combined", ascii "status"] []).2.1
      (by decide) (by decide)).2.2 (by decide),
   by decide,
   ((lookup_returns_earliest_match sample_index
      ⟨[⟨ascii "combined", none⟩, ⟨ascii "Combined", some [⟨ascii "status", 4⟩]⟩]⟩
      [] (ascii "Combined")).1 (by decide) 0).2
      ⟨[], ⟨ascii "combined", none⟩, [⟨ascii "Combined", some [⟨ascii "status", 4⟩]⟩],
       rfl, rfl, by decide, by simp⟩,
   (lookup_returns_earliest_match sample_index
      ⟨[⟨ascii "combined", none⟩, ⟨ascii "Combined", some [⟨ascii "status", 4⟩]⟩]⟩
      [] (ascii "Combined")).2.2 0 1 _ _ (by decide) rfl rfl (by decide)⟩

/-! The JSON object -/

theorem hashtable_set_keys (ms : List (List u_char × json_t)) (key : List u_char)
    (v : json_t) :
    (hashtable_set ms key v).map (fun m => m.1) =
      if key ∈ ms.map (fun m => m.1) then ms.map (fun m => m.1)
      else ms.map (fun m => m.1) ++ [key] := by
  induction ms with
  | nil => simp [hashtable_set]
  | cons m rest ih =>
    obtain ⟨k, w⟩ := m
    by_cases h : k = key
    · simp [hashtable_set, h]
    · have h2 : ¬ key = k := fun hh => h hh.symm
      simp only [hashtable_set, h, if_false, List.map_cons, ih, List.mem_cons, h2, false_or]
      split <;> simp

theorem hashtable_set_find_same (ms : List (List u_char × json_t)) (key : List u_char)
    (v : json_t) :
    ((hashtable_set ms key v).find? (fun m => m.1 == key)).map (fun m => m.2) = some v := by
  induction ms with
  | nil => simp [hashtable_set]
  | cons m rest ih =>
    obtain ⟨k, w⟩ := m
    by_cases h : k = key
    · simp [hashtable_set, h]
    · simp only [hashtable_set, h, if_false]
      rw [List.find?_cons_of_neg _ (by simpa using h)]
      exact ih

theorem hashtable_set_find_other (ms : List (List u_char × json_t)) (key k : List u_char)
    (v : json_t) (hk : k ≠ key) :
    (hashtable_set ms key v).find? (fun m => m.1 == k) = ms.find? (fun m => m.1 == k) := by
  induction ms with
  | nil =>
    simp only [hashtable_set]
    rw [List.find?_cons_of_neg _ (by simpa using fun h => hk h.symm)]
  | cons m rest ih =>
    obtain ⟨k2, w⟩ := m
    by_cases h : k2 = key
    · have h3 : ¬ k2 = k := fun hh => hk (hh ▸ h)
      simp only [hashtable_set, h, if_true]
      rw [List.find?_cons_of_neg _ (by simpa using fun hh => hk (hh.symm)),
        List.find?_cons_of_neg _ (by simpa using fun hh => hk (hh.symm))]
    · simp only [hashtable_set, h, if_false]
      by_cases h4 : k2 = k
      · rw [List.find?_cons_of_pos _ (by simpa using h4),
          List.find?_cons_of_pos _ (by simpa using h4)]
      · rw [List.find?_cons_of_neg _ (by simpa using h4),
          List.find?_cons_of_neg _ (by simpa using h4)]
        exact ih

theorem hashtable_set_mem (ms : List (List u_char × json_t)) (key : List u_char)
    (v : json_t) (m : List u_char × json_t) (hm : m ∈ hashtable_set ms key v) :
    m ∈ ms ∨ m = (key, v) := by
  induction ms with
  | nil =>
    simp only [hashtable_set, List.mem_singleton] at hm
    exact Or.inr hm
  | cons m2 rest ih =>
    obtain ⟨k, w⟩ := m2
    by_cases h : k = key
    · simp only [hashtable_set, h, if_true, List.mem_cons] at hm
      rcases hm with hm | hm
      · exact Or.inr hm
      · exact Or.inl (List.mem_cons_of_mem _ hm)
    · simp only [hashtable_set, h, if_false, List.mem_cons] at hm
      rcases hm with hm | hm
      · exact Or.inl (hm ▸ List.mem_cons_self _ _)
      · rcases ih hm with h2 | h2
        · exact Or.inl (List.mem_cons_of_mem _ h2)
        · exact Or.inr h2

theorem json_object_get_set_same (obj : json_object_t) (key : List u_char) (v : json_t)
    (hk : utf8_check_string key = true) :
    json_object_get (json_object_set_new obj key (some v)) key = some v := by
  simp only [json_object_set_new, hk, if_true, json_object_get]
  exact hashtable_set_find_same obj.members key v

theorem json_object_get_set_other (obj : json_object_t) (key k : List u_char)
    (value : Option json_t) (hk : k ≠ key) :
    json_object_get (json_object_set_new obj key value) k = json_object_get obj k := by
  unfold json_object_set_new
  split
  · cases value with
    | none => rfl
    | some v =>
      simp only [json_object_get]
      rw [hashtable_set_find_other obj.members key k v hk]
  · rfl

theorem json_object_keys_set (obj : json_object_t) (key : List u_char) (v : json_t)
    (hk : utf8_check_string key = true) :
    json_object_keys (json_object_set_new obj key (some v)) =
      if key ∈ json_object_keys obj then json_object_keys obj
      else json_object_keys obj ++ [key] := by
  simp only [json_object_set_new, hk, if_true, json_object_keys]
  exact hashtable_set_keys obj.members key v

/-! The object composed for one log -/

theorem ngx_cpystrn_whole (data : List u_char) :
    ngx_cpystrn data (data.length + 1) = c_str data := by
  simp [ngx_cpystrn]

theorem set_field_eq (r : ngx_http_request_t) (obj : json_object_t)
    (field : ngx_http_json_log_field_t) :
    set_field r obj field =
      json_object_set_new obj (c_str field.name) (json_string (field_value r field)) := by
  unfold set_field field_value
  cases r field.index with
  | none => rfl
  | some value =>
    by_cases h : value.not_found = true
    · simp [h]
    · simp [h]

theorem compose_snoc (r : ngx_http_request_t) (fields : List ngx_http_json_log_field_t)
    (field : ngx_http_json_log_field_t) :
    compose_json_object r (fields ++ [field]) =
      set_field r (compose_json_object r fields) field := by
  simp [compose_json_object, List.foldl_append]

theorem json_string_of_valid {s : List u_char} (h : utf8_check_string s = true) :
    json_string s = some (json_t.string s) := by
  simp [json_string, h]

theorem compose_get_last (r : ngx_http_request_t)
    (pre post : List ngx_http_json_log_field_t) (f : ngx_http_json_log_field_t)
    (hk : utf8_check_string (c_str f.name) = true)
    (hv : utf8_check_string (field_value r f) = true)
    (hpost : ∀ g ∈ post, c_str g.name ≠ c_str f.name) :
    json_object_get (compose_json_object r (pre ++ f :: post)) (c_str f.name) =
      some (json_t.string (field_value r f)) := by
  induction post using List.reverseRecOn with
  | nil =>
    rw [compose_snoc, set_field_eq, json_string_of_valid hv]
    exact json_object_get_set_same _ _ _ hk
  | append_singleton post g ih =>
    have : pre ++ f :: (post ++ [g]) = (pre ++ f :: post) ++ [g] := by simp
    rw [this, compose_snoc, set_field_eq,
      json_object_get_set_other _ _ _ _ (fun h => hpost g (by simp) h.symm)]
    exact ih (fun g2 hg2 => hpost g2 (by simp [hg2]))

theorem compose_get_all (r : ngx_http_request_t)
    (fields : List ngx_http_json_log_field_t) (k value : List u_char)
    (hk : utf8_check_string k = true) (hv : utf8_check_string value = true)
    (hex : ∃ f ∈ fields, c_str f.name = k)
    (hall : ∀ f ∈ fields, c_str f.name = k → field_value r f = value) :
    json_object_get (compose_json_object r fields) k = some (json_t.string value) := by
  induction fields using List.reverseRecOn with
  | nil => simp at hex
  | append_singleton fields g ih =>
    rw [compose_snoc, set_field_eq]
    by_cases hg : c_str g.name = k
    · rw [hg, hall g (by simp) hg, json_string_of_valid hv]
      exact json_object_get_set_same _ _ _ hk
    · rw [json_object_get_set_other _ _ _ _ (fun h => hg h.symm)]
      apply ih
      · obtain ⟨f, hf, hfk⟩ := hex
        rcases List.mem_append.1 hf with h | h
        · exact ⟨f, h, hfk⟩
        · rw [List.mem_singleton] at h
          exact absurd (h ▸ hfk) hg
      · intro f hf hfk
        exact hall f (by simp [hf]) hfk

theorem mem_first_occurrences (l : List (List u_char)) (k : List u_char) :
    k ∈ first_occurrences l ↔ k ∈ l := by
  induction l with
  | nil => simp [first_occurrences]
  | cons x xs ih =>
    simp only [first_occurrences, List.mem_cons, List.mem_filter, ih, bne_iff_ne]
    constructor
    · rintro (h | ⟨h, _⟩)
      · exact Or.inl h
      · exact Or.inr h
    · intro h
      by_cases hx : k = x
      · exact Or.inl hx
      · rcases h with h | h
        · exact Or.inl h
        · exact Or.inr ⟨h, hx⟩

theorem nodup_first_occurrences (l : List (List u_char)) : (first_occurrences l).Nodup := by
  induction l with
  | nil => simp [first_occurrences]
  | cons x xs ih =>
    simp only [first_occurrences, List.nodup_cons, List.mem_filter, bne_iff_ne]
    exact ⟨fun h => h.2 rfl, ih.filter _⟩

theorem first_occurrences_snoc (l : List (List u_char)) (k : List u_char) :
    first_occurrences (l ++ [k]) =
      if k ∈ l then first_occurrences l else first_occurrences l ++ [k] := by
  induction l with
  | nil => simp [first_occurrences]
  | cons x xs ih =>
    have e : first_occurrences (x :: xs ++ [k]) =
        x :: (first_occurrences (xs ++ [k])).filter (fun y => y != x) := rfl
    have e2 : first_occurrences (x :: xs) =
        x :: (first_occurrences xs).filter (fun y => y != x) := rfl
    rw [e, ih, e2]
    by_cases hkx : k = x
    · subst hkx
      by_cases hk : k ∈ xs
      · simp [hk]
      · simp [hk, List.filter_append]
    · by_cases hk : k ∈ xs
      · simp [hk]
      · simp [hk, hkx, List.filter_append]

theorem compose_keys (r : ngx_http_request_t) (fields : List ngx_http_json_log_field_t)
    (hk : ∀ f ∈ fields, utf8_check_string (c_str f.name) = true)
    (hv : ∀ f ∈ fields, utf8_check_string (field_value r f) = true) :
    json_object_keys (compose_json_object r fields) =
      first_occurrences (fields.map (fun f => c_str f.name)) := by
  induction fields using List.reverseRecOn with
  | nil => simp [compose_json_object, json_object, json_object_keys, first_occurrences]
  | append_singleton fields g ih =>
    have ih2 := ih (fun f hf => hk f (by simp [hf])) (fun f hf => hv f (by simp [hf]))
    rw [compose_snoc, set_field_eq, json_string_of_valid (hv g (by simp)),
      json_object_keys_set _ _ _ (hk g (by simp)), List.map_append, List.map_cons,
      List.map_nil, first_occurrences_snoc, ih2]
    by_cases hin : c_str g.name ∈ fields.map (fun f => c_str f.name)
    · rw [if_pos ((mem_first_occurrences _ _).2 hin), if_pos hin]
    · rw [if_neg (fun h => hin ((mem_first_occurrences _ _).1 h)), if_neg hin]

theorem field_value_of_missing (r : ngx_http_request_t) (f : ngx_http_json_log_field_t)
    (h : r f.index = none ∨ ∃ v, r f.index = some v ∧ v.not_found = true) :
    field_value r f = ascii "-" := by
  unfold field_value
  rcases h with h | ⟨v, h, hnf⟩
  · rw [h]
  · rw [h]
    simp [hnf]

theorem field_value_of_found (r : ngx_http_request_t) (f : ngx_http_json_log_field_t)
    (v : ngx_http_variable_value_t) (h : r f.index = some v) (hnf : v.not_found = false) :
    field_value r f = c_str v.data := by
  unfold field_value
  rw [h]
  simp [hnf, ngx_cpystrn_whole]

theorem field_value_valid (r : ngx_http_request_t) (f : ngx_http_json_log_field_t)
    (h : ∀ v, r f.index = some v → v.not_found = false →
      utf8_check_string (c_str v.data) = true) :
    utf8_check_string (field_value r f) = true := by
  cases hr : r f.index with
  | none =>
    rw [field_value_of_missing r f (Or.inl hr)]
    decide
  | some v =>
    by_cases hnf : v.not_found = true
    · rw [field_value_of_missing r f (Or.inr ⟨v, hr, hnf⟩)]
      decide
    · have hnf2 : v.not_found = false := by simpa using hnf
      rw [field_value_of_found r f v hr hnf2]
      exact h v hr hnf2

/-- C1, refuted at a format with the one field `http_user_agent` and a request
whose `User-Agent` header is the byte `0xFF`: the variable is found, and the
composed object has no key at all. -/
theorem compose_drops_key_of_invalid_value :
    latin1_request 7 = some ⟨[0xFF], false⟩
    ∧ json_object_keys
        (compose_json_object latin1_request [⟨ascii "http_user_agent", 7⟩]) = []
    ∧ ascii "http_user_agent" ∉ json_object_keys
        (compose_json_object latin1_request [⟨ascii "http_user_agent", 7⟩]) := by
  decide

/-- C1, amended: when every field name of the format is a C string that is valid
UTF-8, and every value that is found is valid UTF-8 up to its first NUL byte,
the keys of the composed object are the field names, each once, in the order of
their first occurrence; and the value under a name is the one of the last field
of that name. -/
theorem compose_keys_are_field_names (r : ngx_http_request_t)
    (fields : List ngx_http_json_log_field_t)
    (hname : ∀ f ∈ fields, NulFree f.name ∧ utf8_check_string f.name = true)
    (hvalue : ∀ f ∈ fields, ∀ v, r f.index = some v → v.not_found = false →
      utf8_check_string (c_str v.data) = true) :
    json_object_keys (compose_json_object r fields) =
      first_occurrences (fields.map (fun f => f.name))
    ∧ (∀ k, k ∈ json_object_keys (compose_json_object r fields) ↔
        ∃ f ∈ fields, f.name = k)
    ∧ (json_object_keys (compose_json_object r fields)).Nodup
    ∧ (∀ pre f post, fields = pre ++ f :: post → (∀ g ∈ post, g.name ≠ f.name) →
        json_object_get (compose_json_object r fields) f.name =
          some (json_t.string (field_value r f))) := by
  have hc : ∀ f ∈ fields, c_str f.name = f.name := fun f hf =>
    c_str_of_nulFree (hname f hf).1
  have hk : ∀ f ∈ fields, utf8_check_string (c_str f.name) = true := fun f hf => by
    rw [hc f hf]; exact (hname f hf).2
  have hv : ∀ f ∈ fields, utf8_check_string (field_value r f) = true := fun f hf =>
    field_value_valid r f (hvalue f hf)
  have hmap : fields.map (fun f => c_str f.name) = fields.map (fun f => f.name) :=
    List.map_congr_left hc
  have hkeys := compose_keys r fields hk hv
  rw [hmap] at hkeys
  refine ⟨hkeys, ?_, ?_, ?_⟩
  · intro k
    rw [hkeys, mem_first_occurrences, List.mem_map]
  · rw [hkeys]
    exact nodup_first_occurrences _
  · intro pre f post hsplit hpost
    have hf : f ∈ fields := by rw [hsplit]; simp
    have hpostmem : ∀ g ∈ post, g ∈ fields := fun g hg => by rw [hsplit]; simp [hg]
    have := compose_get_last r pre post f (hk f hf) (hv f hf)
      (fun g hg => by rw [hc g (hpostmem g hg), hc f hf]; exact hpost g hg)
    rw [hc f hf, ← hsplit] at this
    exact this

/-- C1, amended, at the format `minimal` and a request with status `404` and
request line `GET /x HTTP/1.1`: the keys are `status` and `request`, in this
order. -/
theorem compose_keys_are_field_names_witness :
    json_object_keys (compose_json_object sample_request minimal_fields) =
      [ascii "status", ascii "request"] :=
  (compose_keys_are_field_names sample_request minimal_fields (by decide)
    (by
      intro f hf v hv hnf
      simp only [minimal_fields, List.mem_cons, List.mem_singleton, List.not_mem_nil,
        or_false] at hf
      rcases hf with rfl | rfl
      · have h4 : sample_request 4 = some ⟨ascii "404", false⟩ := rfl
        rw [h4] at hv
        cases hv
        decide
      · have h3 : sample_request 3 = some ⟨ascii "GET /x HTTP/1.1", false⟩ := rfl
        rw [h3] at hv
        cases hv
        decide)).1

/-- C2, refuted at a format with the one field `request` and a request whose
variable holds the three bytes `a`, NUL, `b`: the variable is found, and the
string stored under `request` is the one byte `a`, not the three bytes. -/
theorem compose_cuts_value_at_nul :
    nul_request 3 = some ⟨[0x61, 0x00, 0x62], false⟩
    ∧ json_object_get (compose_json_object nul_request [⟨ascii "request", 3⟩])
        (ascii "request") = some (json_t.string [0x61])
    ∧ json_object_get (compose_json_object nul_request [⟨ascii "request", 3⟩])
        (ascii "request") ≠ some (json_t.string [0x61, 0x00, 0x62]) := by
  decide

theorem compose_get_of_resolved (gvi : ngx_str_t → Int) (r : ngx_http_request_t)
    (fields : List ngx_http_json_log_field_t) (f : ngx_http_json_log_field_t)
    (value : List u_char)
    (hres : ∀ g ∈ fields, g.index = gvi g.name)
    (hnul : ∀ g ∈ fields, NulFree g.name)
    (hf : f ∈ fields) (hname : utf8_check_string f.name = true)
    (hvalue : utf8_check_string value = true)
    (hfv : ∀ g : ngx_http_json_log_field_t, g.index = f.index → field_value r g = value) :
    json_object_get (compose_json_object r fields) f.name = some (json_t.string value) := by
  apply compose_get_all r fields f.name value hname hvalue
  · exact ⟨f, hf, c_str_of_nulFree (hnul f hf)⟩
  · intro g hg hgk
    rw [c_str_of_nulFree (hnul g hg)] at hgk
    apply hfv
    rw [hres g hg, hres f hf, hgk]

/-- C2, amended: in a format whose field names are C strings and whose indexes
were resolved from the names, for a field whose name is valid UTF-8 and whose
variable is found with a value that is valid UTF-8 up to its first NUL byte, the
value stored under the name of the field is the JSON string of the bytes of the
value before its first NUL byte; it is the whole value when the value has no NUL
byte. -/
theorem found_value_stored_up_to_nul (gvi : ngx_str_t → Int) (r : ngx_http_request_t)
    (fields : List ngx_http_json_log_field_t) (f : ngx_http_json_log_field_t)
    (v : ngx_http_variable_value_t)
    (hres : ∀ g ∈ fields, g.index = gvi g.name)
    (hnul : ∀ g ∈ fields, NulFree g.name)
    (hf : f ∈ fields) (hname : utf8_check_string f.name = true)
    (hv : r f.index = some v) (hfound : v.not_found = false)
    (hvalid : utf8_check_string (c_str v.data) = true) :
    json_object_get (compose_json_object r fields) f.name =
      some (json_t.string (c_str v.data))
    ∧ (NulFree v.data →
      json_object_get (compose_json_object r fields) f.name =
        some (json_t.string v.data)) := by
  have h := compose_get_of_resolved gvi r fields f (c_str v.data) hres hnul hf hname hvalid
    (fun g hg => field_value_of_found r g v (hg ▸ hv) hfound)
  refine ⟨h, fun hn => ?_⟩
  rw [h, c_str_of_nulFree hn]

/-- C2, amended, at the format `minimal` and a request with status `404`: the
value stored under `status` is the string `404`. -/
theorem found_value_stored_up_to_nul_witness :
    json_object_get (compose_json_object sample_request minimal_fields) (ascii "status") =
      some (json_t.string (ascii "404")) :=
  (found_value_stored_up_to_nul sample_index sample_request minimal_fields
    ⟨ascii "status", 4⟩ ⟨ascii "404", false⟩ (by decide) (by decide) (by decide)
    (by decide) rfl rfl (by decide)).2 (by decide)

/-- C3, refuted at a format with the one field `arg_` followed by the byte
`0xFF`, and a request in which that variable is marked not found: nothing is
stored under the name of the field. -/
theorem compose_drops_key_of_invalid_name :
    sample_request latin1_field.index = some ⟨[], true⟩
    ∧ json_object_get (compose_json_object sample_request [latin1_field])
        latin1_field.name = none := by
  decide

/-- C3, amended: in a format whose field names are C strings and whose indexes
were resolved from the names, for a field whose name is valid UTF-8 and whose
variable lookup returns NULL or a value marked not found, the value stored under
the name of the field is the JSON string `-`. -/
theorem missing_value_stored_as_dash (gvi : ngx_str_t → Int) (r : ngx_http_request_t)
    (fields : List ngx_http_json_log_field_t) (f : ngx_http_json_log_field_t)
    (hres : ∀ g ∈ fields, g.index = gvi g.name)
    (hnul : ∀ g ∈ fields, NulFree g.name)
    (hf : f ∈ fields) (hname : utf8_check_string f.name = true)
    (hmiss : r f.index = none ∨ ∃ v, r f.index = some v ∧ v.not_found = true) :
    json_object_get (compose_json_object r fields) f.name =
      some (json_t.string (ascii "-")) :=
  compose_get_of_resolved gvi r fields f (ascii "-") hres hnul hf hname (by decide)
    (fun g hg => field_value_of_missing r g (hg ▸ hmiss))

/-- C3, amended, at the format with the fields `status` and `http_referer` and a
request without `Referer` header: the value stored under `http_referer` is the
string `-`. -/
theorem missing_value_stored_as_dash_witness :
    json_object_get
      (compose_json_object sample_request [⟨ascii "status", 4⟩, ⟨ascii "http_referer", 6⟩])
      (ascii "http_referer") = some (json_t.string (ascii "-")) :=
  missing_value_stored_as_dash sample_index sample_request
    [⟨ascii "status", 4⟩, ⟨ascii "http_referer", 6⟩] ⟨ascii "http_referer", 6⟩
    (by decide) (by decide) (by decide) (by decide) (Or.inr ⟨⟨[], true⟩, rfl, rfl⟩)

/-! The line written for one log -/

theorem hex_digit_ge (n : Nat) : 0x20 ≤ hex_digit n := by
  unfold hex_digit u_char
  split <;> omega

theorem dump_escape_ge (c b : u_char) (hb : b ∈ dump_escape c) : 0x20 ≤ b := by
  unfold dump_escape at hb
  have h1 := hex_digit_ge (c / 16)
  have h2 := hex_digit_ge (c % 16)
  split_ifs at hb
  all_goals simp only [List.mem_cons, List.mem_singleton, List.not_mem_nil, or_false] at hb
  all_goals unfold u_char at *
  all_goals omega

theorem dump_string_ge (s d : List u_char) (h : dump_string s = some d) :
    ∀ b ∈ d, 0x20 ≤ b := by
  unfold dump_string at h
  split at h
  · cases h
    intro b hb
    simp only [List.mem_append, List.mem_singleton, List.mem_flatMap, List.mem_cons,
      List.not_mem_nil, or_false] at hb
    rcases hb with (hb | ⟨c, _, hb⟩) | hb
    · subst hb; decide
    · exact dump_escape_ge c b hb
    · subst hb; decide
  · cases h

theorem dump_member_ge (m : List u_char × json_t) (d : List u_char)
    (h : dump_member m = some d) : ∀ b ∈ d, 0x20 ≤ b := by
  obtain ⟨k, v⟩ := m
  cases v with
  | string value =>
    simp only [dump_member] at h
    cases hk : dump_string k with
    | none => simp [hk] at h
    | some dk =>
      cases hv : dump_string value with
      | none => simp [hk, hv] at h
      | some dv =>
        simp only [hk, hv, Option.some.injEq] at h
        subst h
        intro b hb
        simp only [List.mem_append, List.mem_singleton] at hb
        rcases hb with (hb | hb) | hb
        · exact dump_string_ge k dk hk b hb
        · subst hb; decide
        · exact dump_string_ge value dv hv b hb

theorem dump_members_ge (ms : List (List u_char × json_t)) (d : List u_char)
    (h : dump_members ms = some d) : ∀ b ∈ d, 0x20 ≤ b := by
  induction ms generalizing d with
  | nil =>
    simp only [dump_members, Option.some.injEq] at h
    subst h
    simp
  | cons m rest ih =>
    cases rest with
    | nil =>
      simp only [dump_members] at h
      exact dump_member_ge m d h
    | cons m2 rest2 =>
      simp only [dump_members] at h
      cases hm : dump_member m with
      | none => simp [hm] at h
      | some dm =>
        cases hr : dump_members (m2 :: rest2) with
        | none => simp [hm, hr] at h
        | some dr =>
          simp only [hm, hr, Option.some.injEq] at h
          subst h
          intro b hb
          simp only [List.mem_append, List.mem_singleton] at hb
          rcases hb with (hb | hb) | hb
          · exact dump_member_ge m dm hm b hb
          · subst hb; decide
          · exact ih dr hr b hb

theorem json_dumps_ge (obj : json_object_t) (d : List u_char)
    (h : json_dumps obj = some d) : ∀ b ∈ d, 0x20 ≤ b := by
  unfold json_dumps at h
  cases hm : dump_members obj.members with
  | none => simp [hm] at h
  | some ds =>
    simp only [hm, Option.some.injEq] at h
    subst h
    intro b hb
    simp only [List.mem_append, List.mem_singleton] at hb
    rcases hb with (hb | hb) | hb
    · subst hb; decide
    · exact dump_members_ge _ ds hm b hb
    · subst hb; decide

/-- A member whose key and string value are valid UTF-8. -/
theorem dump_member_of_valid (m : List u_char × json_t)
    (h : utf8_check_string m.1 = true
      ∧ ∃ s, m.2 = json_t.string s ∧ utf8_check_string s = true) :
    ∃ d, dump_member m = some d := by
  obtain ⟨k, v⟩ := m
  obtain ⟨hk, s, hs, hv⟩ := h
  simp only at hk hs
  subst hs
  simp [dump_member, dump_string, hk, hv]

theorem dump_members_of_valid (ms : List (List u_char × json_t))
    (h : ∀ m ∈ ms, utf8_check_string m.1 = true
      ∧ ∃ s, m.2 = json_t.string s ∧ utf8_check_string s = true) :
    ∃ d, dump_members ms = some d := by
  induction ms with
  | nil => exact ⟨[], rfl⟩
  | cons m rest ih =>
    obtain ⟨dm, hdm⟩ := dump_member_of_valid m (h m (by simp))
    cases rest with
    | nil => exact ⟨dm, by simp [dump_members, hdm]⟩
    | cons m2 rest2 =>
      obtain ⟨dr, hdr⟩ := ih (fun x hx => h x (List.mem_cons_of_mem _ hx))
      exact ⟨dm ++ [0x2C] ++ dr, by simp [dump_members, hdm, hdr]⟩

theorem set_field_valid (r : ngx_http_request_t) (obj : json_object_t)
    (f : ngx_http_json_log_field_t)
    (h : ∀ m ∈ obj.members, utf8_check_string m.1 = true
      ∧ ∃ s, m.2 = json_t.string s ∧ utf8_check_string s = true) :
    ∀ m ∈ (set_field r obj f).members, utf8_check_string m.1 = true
      ∧ ∃ s, m.2 = json_t.string s ∧ utf8_check_string s = true := by
  rw [set_field_eq]
  unfold json_object_set_new
  by_cases hk : utf8_check_string (c_str f.name) = true
  · simp only [hk, if_true]
    unfold json_string
    by_cases hv : utf8_check_string (field_value r f) = true
    · simp only [hv, if_true]
      intro m hm
      rcases hashtable_set_mem _ _ _ m hm with h2 | h2
      · exact h m h2
      · subst h2
        exact ⟨hk, _, rfl, hv⟩
    · simp only [hv]
      exact h
  · simp only [hk]
    exact h

theorem compose_valid (r : ngx_http_request_t) (fields : List ngx_http_json_log_field_t) :
    ∀ m ∈ (compose_json_object r fields).members, utf8_check_string m.1 = true
      ∧ ∃ s, m.2 = json_t.string s ∧ utf8_check_string s = true := by
  induction fields using List.reverseRecOn with
  | nil => simp [compose_json_object, json_object]
  | append_singleton fields g ih =>
    rw [compose_snoc]
    exact set_field_valid r _ g ih

theorem json_dumps_compose (r : ngx_http_request_t)
    (fields : List ngx_http_json_log_field_t) :
    ∃ json_str, json_dumps (compose_json_object r fields) = some json_str := by
  obtain ⟨d, hd⟩ := dump_members_of_valid _ (compose_valid r fields)
  exact ⟨[0x7B] ++ d ++ [0x7D], by simp [json_dumps, hd]⟩

theorem strlen_of_ge (s : List u_char) (h : ∀ b ∈ s, 0x20 ≤ b) : strlen s = s.length := by
  unfold strlen
  rw [c_str_of_nulFree]
  intro c hc h0
  have := h c hc
  subst h0
  exact absurd this (by decide)

theorem log_one_of_format (lmcf : ngx_http_json_log_main_conf_t)
    (r : ngx_http_request_t) (log : ngx_http_json_log_t) (i : Nat)
    (fmt : ngx_http_json_log_fmt_t) (fields : List ngx_http_json_log_field_t)
    (hf : log.format = some i) (hi : lmcf.formats[i]? = some fmt)
    (hfs : fmt.fields = some fields) :
    ∃ json_str, json_dumps (compose_json_object r fields) = some json_str
      ∧ log_one lmcf r log = some ⟨log.file, json_str ++ [LF], json_str.length + 1⟩
      ∧ (∀ b ∈ json_str, 0x20 ≤ b) := by
  obtain ⟨json_str, hd⟩ := json_dumps_compose r fields
  have hge := json_dumps_ge _ _ hd
  have hlen := strlen_of_ge json_str hge
  refine ⟨json_str, hd, ?_, hge⟩
  simp only [log_one, hf, hi, hfs, hd, hlen, List.take_length, ngx_http_json_log_write]

/-- C4: for a log whose format is in the registry with its fields, and for every
request, the one call of `ngx_write_fd` made for the log goes to the file of the
log, with a buffer that is the compact serialization of the composed object
followed by one line feed byte, and with a length that is the length of the
serialization plus one.  The serialization holds no line feed byte itself (no
byte below `0x20` at all), so the line feed at the end is the only one. -/
theorem log_one_writes_dump_and_linefeed (lmcf : ngx_http_json_log_main_conf_t)
    (r : ngx_http_request_t) (log : ngx_http_json_log_t) (i : Nat)
    (fmt : ngx_http_json_log_fmt_t) (fields : List ngx_http_json_log_field_t)
    (hf : log.format = some i) (hi : lmcf.formats[i]? = some fmt)
    (hfs : fmt.fields = some fields) :
    ∃ json_str, json_dumps (compose_json_object r fields) = some json_str
      ∧ log_one lmcf r log = some ⟨log.file, json_str ++ [LF], json_str.length + 1⟩
      ∧ (json_str ++ [LF]).length = json_str.length + 1
      ∧ (∀ b ∈ json_str, 0x20 ≤ b)
      ∧ LF ∉ json_str := by
  obtain ⟨json_str, hd, hw, hge⟩ := log_one_of_format lmcf r log i fmt fields hf hi hfs
  refine ⟨json_str, hd, hw, by simp, hge, ?_⟩
  intro hmem
  have := hge LF hmem
  simp [LF] at this

/-- C4, at the format `minimal` (`status`, `request`) and a request with status
`404` and request line `GET /x HTTP/1.1`: the buffer written holds the object
with the two members and one line feed, 45 bytes in all. -/
theorem log_one_writes_dump_and_linefeed_witness :
    log_one sample_main_conf sample_request sample_log =
      some ⟨⟨ascii "/var/log/a.log"⟩,
        ascii "\x7b\"status\":\"404\",\"request\":\"GET /x HTTP/1.1\"\x7d\n", 45⟩
    ∧ ∃ json_str,
        json_dumps (compose_json_object sample_request minimal_fields) = some json_str
        ∧ log_one sample_main_conf sample_request sample_log =
            some ⟨sample_log.file, json_str ++ [LF], json_str.length + 1⟩
        ∧ (json_str ++ [LF]).length = json_str.length + 1
        ∧ (∀ b ∈ json_str, 0x20 ≤ b)
        ∧ LF ∉ json_str :=
  ⟨by decide,
   log_one_writes_dump_and_linefeed sample_main_conf sample_request sample_log 1
     ⟨ascii "minimal", some minimal_fields⟩ minimal_fields rfl rfl rfl⟩

/-! The writes of the handler -/

theorem log_loop_of_hasFormat (lmcf : ngx_http_json_log_main_conf_t)
    (r : ngx_http_request_t) (logs : List ngx_http_json_log_t)
    (h : ∀ log ∈ logs, HasFormat lmcf log) :
    ∃ writes, log_loop lmcf r logs = (writes, some NGX_OK)
      ∧ List.Forall₂ (fun log w => ∃ i fmt fields json_str,
          log.format = some i ∧ lmcf.formats[i]? = some fmt ∧ fmt.fields = some fields
          ∧ json_dumps (compose_json_object r fields) = some json_str
          ∧ w = ⟨log.file, json_str ++ [LF], json_str.length + 1⟩) logs writes := by
  induction logs with
  | nil => exact ⟨[], rfl, List.Forall₂.nil⟩
  | cons log rest ih =>
    obtain ⟨ws, hws, hall⟩ := ih (fun l hl => h l (List.mem_cons_of_mem _ hl))
    obtain ⟨i, fmt, fields, hf, hi, hfs⟩ := h log (by simp)
    obtain ⟨json_str, hd, hw, _⟩ := log_one_of_format lmcf r log i fmt fields hf hi hfs
    refine ⟨⟨log.file, json_str ++ [LF], json_str.length + 1⟩ :: ws, ?_, ?_⟩
    · simp only [log_loop, hw, hws]
    · exact List.Forall₂.cons ⟨i, fmt, fields, json_str, hf, hi, hfs, hd, rfl⟩ hall

/-- The writes of `ngx_http_json_log_handler` where no format pointer is NULL:
no write when the location is off, with or without logs; and when the location
is not off and every log has its format, `NGX_OK` after exactly one write per
log, in the order of the logs, the write for a log going to the file of that log
with the serialization of the object composed from the fields of the format of
that log, followed by a line feed. -/
theorem handler_writes_one_line_per_log (lmcf : ngx_http_json_log_main_conf_t)
    (llcf : ngx_http_json_log_loc_conf_t) (r : ngx_http_request_t) :
    (llcf.off ≠ 0 → ngx_http_json_log_handler lmcf llcf r = ([], some NGX_OK))
    ∧ (llcf.off = 0 → ∀ logs, llcf.logs = some logs →
      (∀ log ∈ logs, HasFormat lmcf log) →
      ∃ writes, ngx_http_json_log_handler lmcf llcf r = (writes, some NGX_OK)
        ∧ writes.length = logs.length
        ∧ writes.map (fun w => w.file) = logs.map (fun log => log.file)
        ∧ List.Forall₂ (fun log w => ∃ i fmt fields json_str,
            log.format = some i ∧ lmcf.formats[i]? = some fmt ∧ fmt.fields = some fields
            ∧ json_dumps (compose_json_object r fields) = some json_str
            ∧ w = ⟨log.file, json_str ++ [LF], json_str.length + 1⟩) logs writes) := by
  constructor
  · intro hoff
    simp only [ngx_http_json_log_handler, hoff, ne_eq, not_false_eq_true, if_true]
  · intro hoff logs hlogs hfmt
    obtain ⟨writes, hw, hall⟩ := log_loop_of_hasFormat lmcf r logs hfmt
    refine ⟨writes, ?_, hall.length_eq.symm, ?_, hall⟩
    · simp only [ngx_http_json_log_handler, hoff, ne_eq, not_true_eq_false, if_false, hlogs, hw]
    · clear hw hlogs hfmt
      induction hall with
      | nil => rfl
      | cons hab _ ih =>
        obtain ⟨_, _, _, _, _, _, _, _, hwr⟩ := hab
        simp only [List.map_cons, hwr]
        rw [ih]

/-- A location with two logs bound to `minimal`: when the location is off there
is no write; when it is not off there are exactly two writes, the first to
`/var/log/a.log` and the second to `/var/log/b.log`. -/
theorem handler_writes_one_line_per_log_witness :
    ngx_http_json_log_handler sample_main_conf ⟨some [sample_log, sample_log_b], 1⟩
        sample_request = ([], some NGX_OK)
    ∧ ∃ writes,
        ngx_http_json_log_handler sample_main_conf ⟨some [sample_log, sample_log_b], 0⟩
          sample_request = (writes, some NGX_OK)
        ∧ writes.length = 2
        ∧ writes.map (fun w => w.file) =
            [⟨ascii "/var/log/a.log"⟩, ⟨ascii "/var/log/b.log"⟩]
        ∧ List.Forall₂ (fun log w => ∃ i fmt fields json_str,
            log.format = some i ∧ sample_main_conf.formats[i]? = some fmt
            ∧ fmt.fields = some fields
            ∧ json_dumps (compose_json_object sample_request fields) = some json_str
            ∧ w = ⟨log.file, json_str ++ [LF], json_str.length + 1⟩)
            [sample_log, sample_log_b] writes :=
  ⟨(handler_writes_one_line_per_log sample_main_conf
      ⟨some [sample_log, sample_log_b], 1⟩ sample_request).1 (by decide),
   (handler_writes_one_line_per_log sample_main_conf
      ⟨some [sample_log, sample_log_b], 0⟩ sample_request).2 rfl
      [sample_log, sample_log_b] rfl
      (by
        intro log hlog
        simp only [List.mem_cons, List.mem_singleton, List.not_mem_nil, or_false] at hlog
        rcases hlog with rfl | rfl
        · exact ⟨1, ⟨ascii "minimal", some minimal_fields⟩, minimal_fields, rfl, rfl, rfl⟩
        · exact ⟨1, ⟨ascii "minimal", some minimal_fields⟩, minimal_fields, rfl, rfl, rfl⟩)⟩

/-- C5, the code at the location configuration that
`ngx_http_json_log_merge_loc_conf` makes for a fresh child under a fresh parent:
the location is not off and holds exactly one log, and for every registry and
every request the handler makes no write at all and does not return, where the
claim has one write for the one log. -/
theorem handler_default_log_no_write :
    (ngx_http_json_log_merge_loc_conf ngx_http_json_log_create_loc_conf
        ngx_http_json_log_create_loc_conf).conf.off = 0
    ∧ (ngx_http_json_log_merge_loc_conf ngx_http_json_log_create_loc_conf
        ngx_http_json_log_create_loc_conf).conf.logs.map List.length = some 1
    ∧ ∀ (lmcf : ngx_http_json_log_main_conf_t) (r : ngx_http_request_t),
        (ngx_http_json_log_handler lmcf
          (ngx_http_json_log_merge_loc_conf ngx_http_json_log_create_loc_conf
            ngx_http_json_log_create_loc_conf).conf r).1 = []
        ∧ (ngx_http_json_log_handler lmcf
          (ngx_http_json_log_merge_loc_conf ngx_http_json_log_create_loc_conf
            ngx_http_json_log_create_loc_conf).conf r).2 = none := by
  refine ⟨by decide, by decide, ?_⟩
  intro lmcf r
  exact ⟨rfl, rfl⟩

end NgxHttpJsonLog
